import Mathlib

/-!
Verification development for the baseball-scrapping repository.

The Python source is shallowly embedded: text is modelled as `List Char`,
Python `None`-or-string values as `Option (List Char)`, and the pandas /
Python runtime primitives actually exercised by the code (`str.strip`,
`str.replace`, `in`, `float`, `int`, `pd.to_numeric(errors=coerce)` and the
CSV round trip) as executable Lean functions.  Numeric values are modelled
with exact decimal arithmetic (mantissa / 10 ^ exponent), matching the
shortest-round-trip printing Python performs on the short decimal literals
this dataset contains.
-/

/-- Characters of a string literal, the working representation of Python text. -/
def chars (s : String) : List Char := s.data

/-- Python whitespace recognised by `str.strip()` (the ASCII subset used here). -/
def isPyWS (c : Char) : Bool :=
  c = ' ' || c = '\t' || c = '\n' || c = '\x0d' || c = '\x0b' || c = '\x0c'

/-- Model of Python `str.lstrip()`. -/
def lstripC (l : List Char) : List Char := l.dropWhile isPyWS

/-- Model of Python `str.rstrip()`. -/
def rstripC (l : List Char) : List Char := (l.reverse.dropWhile isPyWS).reverse

/-- Model of Python `str.strip()`. -/
def pyStrip (l : List Char) : List Char := rstripC (lstripC l)

/-- Does `p` occur at the start of `l`? -/
def isPre : List Char → List Char → Bool
  | [], _ => true
  | _ :: _, [] => false
  | a :: as_, b :: bs => a = b && isPre as_ bs

/-- Model of the Python `in` operator on strings: does `p` occur inside `l`? -/
def hasSub (p : List Char) : List Char → Bool
  | [] => decide (p = [])
  | c :: rest => isPre p (c :: rest) || hasSub p rest

/-- Model of Python `str.replace(p, r)`: every non-overlapping occurrence of
`p`, scanned left to right, is replaced with `r`. -/
def replaceAll : List Char → List Char → List Char → List Char
  | [], _, l => l
  | _ :: _, _, [] => []
  | ph :: pt, r, c :: rest =>
      if isPre (ph :: pt) (c :: rest) then
        r ++ replaceAll (ph :: pt) r (rest.drop pt.length)
      else
        c :: replaceAll (ph :: pt) r rest
  termination_by _ _ l => l.length
  decreasing_by
    all_goals simp_wf
    all_goals omega

/-- Decimal digit characters. -/
def isDigitC (c : Char) : Bool := '0' ≤ c && c ≤ '9'

/-- The digit character for `d` (defined on `0..9`, defaulting to `0`). -/
def digitChar : Nat → Char
  | 0 => '0' | 1 => '1' | 2 => '2' | 3 => '3' | 4 => '4'
  | 5 => '5' | 6 => '6' | 7 => '7' | 8 => '8' | 9 => '9'
  | _ => '0'

/-- Numeric value of a digit character. -/
def digitVal (c : Char) : Nat := c.toNat - '0'.toNat

/-- Decimal digits of a natural number, most significant first. -/
def natDigits (n : Nat) : List Char :=
  if _h : n < 10 then [digitChar n]
  else natDigits (n / 10) ++ [digitChar (n % 10)]
  termination_by n
  decreasing_by
    simp_wf
    exact Nat.div_lt_self (by omega) (by omega)

/-- Value of a digit string (ignoring leading zeros). -/
def digitsToNat (l : List Char) : Nat := l.foldl (fun a c => a * 10 + digitVal c) 0

/-- Decimal digits of an integer, with a leading minus sign when negative. -/
def intDigits (m : Int) : List Char :=
  (if m < 0 then ['-'] else []) ++ natDigits m.natAbs

/-- A Python number as produced by `float` / `pd.to_numeric`, modelled with
exact decimal arithmetic: the value is `mant / 10 ^ fexp`; `isInt` records
whether the literal parsed as an integer (no decimal point). -/
structure PyNum where
  isInt : Bool
  mant : Int
  fexp : Nat
  deriving DecidableEq, Repr

/-- Strip factors of ten from a decimal mantissa/exponent pair, the canonical
form in which a float prints back the shortest literal that round-trips. -/
def canonF : Int → Nat → Int × Nat
  | m, 0 => (m, 0)
  | m, e + 1 => if m % 10 = 0 then canonF (m / 10) e else (m, e + 1)

/-- Is a parsed number in canonical form (integers have exponent zero, floats
have no removable factor of ten)? -/
def isCanon (n : PyNum) : Bool :=
  if n.isInt then n.fexp = 0 else canonF n.mant n.fexp = (n.mant, n.fexp)

/-- Model of Python `int(s)`: optional sign, decimal digits, surrounding
whitespace allowed; anything else raises (returns `none`). -/
def pyParseInt (l : List Char) : Option Int :=
  let t := pyStrip l
  let sign : Bool := t.head? == some '-'
  let t1 : List Char := if t.head? == some '-' || t.head? == some '+' then t.tail else t
  if t1 ≠ [] && t1.all isDigitC then
    some (if sign then -(digitsToNat t1 : Int) else (digitsToNat t1 : Int))
  else none

/-- Model of Python numeric parsing as used by `float(s)` and per-element
`pd.to_numeric`: optional sign, digits, optional fractional part.  The result
is canonicalised; parse failure is `none` (an exception / coerced `NaN`). -/
def pyParseNum (l : List Char) : Option PyNum :=
  let t := pyStrip l
  let sign : Bool := t.head? == some '-'
  let t1 : List Char := if t.head? == some '-' || t.head? == some '+' then t.tail else t
  let ip := t1.takeWhile isDigitC
  let rest1 := t1.dropWhile isDigitC
  if rest1 = [] then
    if ip = [] then none
    else some ⟨true, (if sign then -(digitsToNat ip : Int) else (digitsToNat ip : Int)), 0⟩
  else if rest1.head? == some '.' then
    let r2 := rest1.tail
    let fp := r2.takeWhile isDigitC
    let rest2 := r2.dropWhile isDigitC
    if rest2 = [] && (ip ≠ [] || fp ≠ []) then
      let mra : Nat := digitsToNat ip * 10 ^ fp.length + digitsToNat fp
      let mr : Int := if sign then -(mra : Int) else (mra : Int)
      let ce := canonF mr fp.length
      some ⟨false, ce.1, ce.2⟩
    else none
  else none

/-- Digits of `m / 10 ^ e` (for `m ≥ 0`) written with an explicit decimal
point, matching how Python prints a non-negative float. -/
def printFloatAbs (m : Nat) (e : Nat) : List Char :=
  let ds := natDigits m
  let dsp := List.replicate (e + 1 - ds.length) '0' ++ ds
  let ipart := dsp.take (dsp.length - e)
  let fpart := dsp.drop (dsp.length - e)
  ipart ++ '.' :: (if fpart = [] then ['0'] else fpart)

/-- How pandas prints one numeric cell back to CSV: integers print bare unless
the column was promoted to float (`forceFloat`), floats print their canonical
decimal form. -/
def printNum (forceFloat : Bool) (n : PyNum) : List Char :=
  if n.isInt && !forceFloat then intDigits n.mant
  else (if n.mant < 0 then ['-'] else []) ++ printFloatAbs n.mant.natAbs n.fexp

/-! ## data_cleaner.py — cell-level cleaning functions -/

/-- A CSV cell as pandas reads it: `none` is NaN (an empty field). -/
abbrev CsvCell := Option (List Char)

/-- Model of `clean_special_characters`: `re.sub` over the alternation of the
four mojibake encodings of the half glyph, each replaced by `.5`.  The four
patterns have pairwise distinct first (or second) characters, so a direct
left-to-right scan matches the regex semantics. -/
def cleanSpecialChars : List Char → List Char
  | [] => []
  | 'Ã' :: 'ƒ' :: 'â' :: '€' :: 'š' :: 'Ã' :: '‚' :: 'Â' :: '½' :: rest =>
      '.' :: '5' :: cleanSpecialChars rest
  | 'Ã' :: '‚' :: 'Â' :: '½' :: rest => '.' :: '5' :: cleanSpecialChars rest
  | 'Â' :: '½' :: rest => '.' :: '5' :: cleanSpecialChars rest
  | '½' :: rest => '.' :: '5' :: cleanSpecialChars rest
  | c :: rest => c :: cleanSpecialChars rest

/-- Model of `clean_placeholder_values`: a value whose trimmed text is `--` or
empty becomes None; otherwise the original (untrimmed) value is kept. -/
def clean_placeholder_values (v : CsvCell) : CsvCell :=
  match v with
  | none => none
  | some s => if pyStrip s = chars "--" || pyStrip s = [] then none else some s

/-- Model of `clean_asterisks` on a present value: remove every `*`, then strip. -/
def cleanAsterisksC (s : List Char) : List Char := pyStrip (s.filter (fun c => c ≠ '*'))

/-- Model of `standardize_decimal_format` on a present value: strip, rewrite a
leading comma to a period (when more follows), then prepend a zero to a
leading period (when more follows). -/
def standardizeDecimalC (s : List Char) : List Char :=
  let t := pyStrip s
  let t2 := if t.head? == some ',' && t.length > 1 then '.' :: t.tail else t
  if t2.head? == some '.' && t2.length > 1 then '0' :: t2 else t2

/-- Model of `clean_question_marks` on a present value: strip, drop one
trailing question mark, strip again. -/
def cleanQuestionC (s : List Char) : List Char :=
  let t := pyStrip s
  if t.getLast? = some '?' then pyStrip t.dropLast else t

/-- Model of one cell of `convert_to_numeric`: placeholder cleaning, special
character cleaning, then `pd.to_numeric(errors=coerce)` — a value that fails
to parse becomes NaN (`none`), never a default number. -/
def toNumericCell (v : CsvCell) : Option PyNum :=
  match clean_placeholder_values v with
  | none => none
  | some s => pyParseNum (cleanSpecialChars s)

/-- Model of `convert_to_numeric` over a whole column. -/
def convert_to_numeric (cells : List CsvCell) : List (Option PyNum) :=
  cells.map toNumericCell

/-! ## data_cleaner.py — column tables from `clean_csv` -/

/-- The conventional key columns, in the order `clean_csv` / `save_to_csv`
probe for them. -/
def keyColumnNames : List (List Char) :=
  [chars "Year", chars "League", chars "Team", chars "Player_Name", chars "Statistic"]

/-- Columns given a trailing-question-mark scrub (step 4 of `clean_csv`). -/
def numericLikeColumns : List (List Char) :=
  [chars "Year", chars "Wins", chars "Losses", chars "Ties", chars "G", chars "AB",
   chars "R", chars "H", chars "2B", chars "3B", chars "HR", chars "RBI", chars "BB",
   chars "SO", chars "SB", chars "W", chars "L", chars "CG", chars "SHO", chars "SV",
   chars "IP", chars "GB", chars "Value"]

/-- Columns coerced to integer-like numerics (step 9 of `clean_csv`). -/
def numericColumns : List (List Char) :=
  [chars "Year", chars "Wins", chars "Losses", chars "Ties", chars "G", chars "AB",
   chars "R", chars "H", chars "2B", chars "3B", chars "HR", chars "RBI", chars "BB",
   chars "SO", chars "SB", chars "W", chars "L", chars "CG", chars "SHO", chars "SV",
   chars "IP"]

/-- Columns coerced to decimal numerics (step 10 of `clean_csv`). -/
def decimalNumericColumns : List (List Char) :=
  [chars "ERA", chars "AVG", chars "OBP", chars "SLG", chars "OPS", chars "WP",
   chars "BA", chars "PCT", chars "GB", chars "Value"]

/-- Substrings marking a decimal-format column (step 8 of `clean_csv`). -/
def decimalFormatSubs : List (List Char) :=
  [chars "AVG", chars "BA", chars "ERA", chars "WP", chars "OBP", chars "SLG", chars "PCT"]

/-- Is this a name-like column (step 6 of `clean_csv`)? -/
def isNameColumn (c : List Char) : Bool :=
  hasSub (chars "Player") c || hasSub (chars "Name") c || hasSub (chars "Team") c

/-- Is this a decimal-format column (step 8 of `clean_csv`)? -/
def isDecimalFormatColumn (c : List Char) : Bool :=
  decimalFormatSubs.any (fun p => hasSub p c)

/-- The characters of the mojibake detection character class in step 3
of `clean_csv`. -/
def specialTriggerChars : List Char := ['Ã', '‚', 'Â', '½', 'ƒ', 'â', '€', 'š']

/-- Write-back of a text cell: pandas writes an empty string and NaN both as
an empty CSV field, which reads back as NaN. -/
def writeTextCell (v : CsvCell) : CsvCell :=
  match v with
  | none => none
  | some s => if s = [] then none else some s

/-- Does a cell hold the placeholder text `--` (after trimming)?  Used for
the content trigger of step 5 of `clean_csv`. -/
def isDashCell (v : CsvCell) : Bool :=
  match v with
  | some s => pyStrip s = chars "--"
  | none => false

/-- Steps 3 to 8 of `clean_csv` on one column: special characters, question
marks, placeholders, asterisks, whitespace and decimal format.
Content-triggered steps apply exactly when some cell of the column exhibits
the trigger, as in the source. -/
def cleanColumnPre (name : List Char) (cells : List CsvCell) : List CsvCell :=
  let c3 := if cells.any (fun v => (v.getD []).any (fun c => specialTriggerChars.contains c))
            then cells.map (Option.map cleanSpecialChars) else cells
  let c4 := if numericLikeColumns.contains name && c3.any (fun v => (v.getD []).contains '?')
            then c3.map (Option.map cleanQuestionC) else c3
  let c5 := if c4.any isDashCell
            then c4.map clean_placeholder_values else c4
  let c6 := if isNameColumn name && c5.any (fun v => (v.getD []).contains '*')
            then c5.map (Option.map cleanAsterisksC) else c5
  let c7 := c6.map (Option.map pyStrip)
  if isDecimalFormatColumn name then c7.map (Option.map standardizeDecimalC) else c7

/-- Dtype promotion of a converted column: the column prints ints bare only
when no cell is NaN and none parsed as a float. -/
def colFloatMode (ps : List (Option PyNum)) : Bool :=
  ps.any (fun p => p.isNone) ||
  ps.any (fun p => match p with | some n => !n.isInt | none => false)

/-- Steps 9/10 of `clean_csv` plus the CSV write-back of a numeric column:
`convert_to_numeric` then pandas printing under the column dtype. -/
def numericWriteCol (cells : List CsvCell) : List CsvCell :=
  (convert_to_numeric cells).map (Option.map (printNum (colFloatMode (convert_to_numeric cells))))

/-- The full treatment one column receives in `clean_csv` (steps 3 to 10, then
the CSV write/read round trip). -/
def cleanColumnCells (name : List Char) (cells : List CsvCell) : List CsvCell :=
  if numericColumns.contains name || decimalNumericColumns.contains name then
    numericWriteCol (cleanColumnPre name cells)
  else
    (cleanColumnPre name cells).map writeTextCell

/-- A CSV table as read by pandas: named columns and rows of cells. -/
structure CsvTable where
  cols : List (List Char)
  rows : List (List CsvCell)
  deriving DecidableEq, Repr

/-- The key columns a dataset actually has, in probe order. -/
def keyColumns (cols : List (List Char)) : List (List Char) :=
  keyColumnNames.filter (fun c => cols.contains c)

/-- Index of a named column. -/
def colIndex (cols : List (List Char)) (c : List Char) : Nat := cols.findIdx (fun x => x = c)

/-- The key tuple of one row (NaNs compare equal, as in pandas dedup). -/
def keyTuple (cols : List (List Char)) (row : List CsvCell) : List CsvCell :=
  (keyColumns cols).map (fun c => row.getD (colIndex cols c) none)

/-- Drop rows whose key was already seen (pandas `drop_duplicates(keep=first)`). -/
def dedupByKeyAux {α β : Type} [DecidableEq β] (key : α → β) : List α → List β → List α
  | [], _ => []
  | x :: xs, seen =>
      if seen.contains (key x) then dedupByKeyAux key xs seen
      else x :: dedupByKeyAux key xs (key x :: seen)

/-- Keep the first occurrence of every key. -/
def dedupByKey {α β : Type} [DecidableEq β] (key : α → β) (l : List α) : List α :=
  dedupByKeyAux key l []

/-- Columns of a row-major table (short rows read as NaN). -/
def toColumns (n : Nat) (rows : List (List CsvCell)) : List (List CsvCell) :=
  (List.range n).map (fun i => rows.map (fun r => r.getD i none))

/-- Rows of a column-major table. -/
def toRows (colsData : List (List CsvCell)) : List (List CsvCell) :=
  let m := (colsData.map List.length).foldr max 0
  (List.range m).map (fun j => colsData.map (fun c => c.getD j none))

/-- The surviving rows of `clean_csv` before the per-column steps: drop
all-empty rows, then dedup on the key columns keeping first. -/
def survivingRows (t : CsvTable) : List (List CsvCell) :=
  let rows1 := t.rows.filter (fun r => r.any (fun v => v.isSome))
  if keyColumns t.cols ≠ [] then dedupByKey (keyTuple t.cols) rows1 else rows1

/-- The cleaned columns of `clean_csv`: the per-column steps applied to each
surviving column, paired with its header name. -/
def cleanedColumns (t : CsvTable) : List (List CsvCell) :=
  (t.cols.zip (toColumns t.cols.length (survivingRows t))).map
    (fun p => cleanColumnCells p.1 p.2)

/-- Model of `clean_csv` on one dataset: drop all-empty rows, dedup on the
key columns keeping first, then the per-column cleaning steps, ending in the
written file (as it reads back). -/
def clean_csv (t : CsvTable) : CsvTable :=
  ⟨t.cols, toRows (cleanedColumns t)⟩

/-! ## common_scraper.py — `save_to_csv` merge path -/

/-- Model of the merge branch of `save_to_csv` (the dataset file already
exists): when key columns are determinable, existing and new rows are
concatenated and deduplicated on the key tuple keeping the first occurrence;
otherwise the new rows are appended verbatim.  Both frames share `cols`. -/
def save_to_csv_merge (cols : List (List Char))
    (existing newRows : List (List CsvCell)) : List (List CsvCell) :=
  if keyColumns cols ≠ [] then dedupByKey (keyTuple cols) (existing ++ newRows)
  else existing ++ newRows

/-! ## scraper_al.py — checkpoint handling -/

/-- The content of the checkpoint JSON file. -/
structure Checkpoint where
  league : List Char
  processed_years : List (List Char)
  deriving DecidableEq, Repr

/-- Model of `load_checkpoint`: the processed-year set if the file exists and
records this league, else empty. -/
def load_checkpoint (file : Option Checkpoint) : List (List Char) :=
  match file with
  | some c => if c.league = chars "AL" then c.processed_years else []
  | none => []

/-- Model of the unit-selection logic of `scraper_al.main`: the startup code
unconditionally deletes any existing checkpoint file (lines 140-142) before
`load_checkpoint` runs, then processes every year not in the loaded set.
Returns the years the run processes, in order. -/
def scraper_al_run_processed (checkpointFile : Option Checkpoint)
    (years : List (List Char)) : List (List Char) :=
  let _ := checkpointFile
  let fileAfterStartup : Option Checkpoint := none
  let processed := load_checkpoint fileAfterStartup
  years.filter (fun y => !processed.contains y)

/-! ## common_scraper.py — `extract_team_standings` -/

/-- A table cell as the standings extractor sees it: text content, class
attribute, optional rowspan attribute, and the text of a contained link
(`none` when `find_element` raises because there is no link). -/
structure SCell where
  text : List Char
  cls : List Char
  rowspan : Option (List Char)
  linkText : Option (List Char)
  deriving DecidableEq, Repr

/-- A placeholder cell for index reads (every read in the source is guarded
by a cell-count check, so the placeholder is never observed). -/
def dummySCell : SCell := ⟨[], [], none, none⟩

/-- One standings row as emitted (field values still text, as scraped). -/
structure StandingRecord where
  year : List Char
  league : List Char
  division : List Char
  team : List Char
  wins : Option (List Char)
  losses : Option (List Char)
  ties : Option (List Char)
  wp : Option (List Char)
  gb : Option (List Char)
  payroll : Option (List Char)
  deriving DecidableEq, Repr

/-- The fixed split-season marker set. -/
def splitIndicators : List (List Char) :=
  [chars "Final", chars "1st Half", chars "2nd Half", chars "(a)", chars "(b)"]

/-- Division header names. -/
def divisionNames : List (List Char) := [chars "East", chars "Central", chars "West"]

/-- Truthiness of an optional attribute string (Python: `None` and the empty
string are falsy). -/
def truthyAttr (o : Option (List Char)) : Bool :=
  match o with
  | some s => s ≠ []
  | none => false

/-- Model of the games-behind repair (lines 331-338 of common_scraper.py):
the literal `--` becomes `0`; otherwise the first recognised half-game
artifact found is replaced everywhere by `.5`; otherwise commas become
periods. -/
def cleanGBOpt (gb : Option (List Char)) : Option (List Char) :=
  match gb with
  | none => none
  | some g =>
      if g = chars "--" then some (chars "0")
      else if g ≠ [] && hasSub (chars "Ãƒâ€šÃ‚Â½") g then
        some (replaceAll (chars "Ãƒâ€šÃ‚Â½") (chars ".5") g)
      else if g ≠ [] && hasSub (chars "Â½") g then
        some (replaceAll (chars "Â½") (chars ".5") g)
      else if g ≠ [] && hasSub (chars ",") g then
        some (replaceAll (chars ",") (chars ".") g)
      else some g

/-- Final empty-to-None conversion applied to each extracted field. -/
def noneIfEmpty (v : Option (List Char)) : Option (List Char) :=
  match v with
  | none => none
  | some s => if s = [] then none else some s

/-- Final conversion for the ties field: empty or `0` becomes None. -/
def tiesFinal (v : Option (List Char)) : Option (List Char) :=
  match v with
  | none => none
  | some s => if s = [] || s = chars "0" then none else some s

/-- A payroll cell is recognised only with a leading currency marker; the
marker and digit-group separators are stripped. -/
def payrollOf (s : List Char) : Option (List Char) :=
  if isPre (chars "$") s then
    some (pyStrip (replaceAll (chars ",") [] (replaceAll (chars "$") [] s)))
  else none

/-- Does a parsed number lie in `[0, 1]`? -/
def numIn01 (n : PyNum) : Bool :=
  decide (0 ≤ n.mant) && decide (n.mant ≤ (10 : Int) ^ n.fexp)

/-- The constant zero used for `float(x) if x else 0`. -/
def pyZeroNum : PyNum := ⟨true, 0, 0⟩

/-- Field extraction of one standings data row after the team name was
resolved (lines 253-365 of common_scraper.py): split-column detection and
offset, win/loss/ties/WP/GB/payroll reads, games-behind repair and the final
empty-to-None conversions. -/
def extractStandingsFields (year league division team : List Char)
    (cells : List SCell) : Option StandingRecord :=
  let numCells := cells.length
  let secondText := pyStrip ((cells.getD 1 dummySCell).text)
  let isSplit := numCells > 1 && splitIndicators.contains secondText
  let offset := if isSplit then 1 else 0
  let skipRow := isSplit && secondText ≠ chars "Final"
  if skipRow then none
  else
    let at_ := fun i => pyStrip ((cells.getD i dummySCell).text)
    let fields : Option (List Char) × Option (List Char) × Option (List Char) ×
        Option (List Char) × Option (List Char) × Option (List Char) :=
      if numCells ≥ 5 + offset then
        let wins := some (at_ (1 + offset))
        let losses := some (at_ (2 + offset))
        if numCells ≥ 7 + offset then
          let third := at_ (3 + offset)
          let fourth := at_ (4 + offset)
          let thirdPar := if third = [] then some pyZeroNum else pyParseNum third
          let fourthPar := if fourth = [] then some pyZeroNum else pyParseNum fourth
          match thirdPar, fourthPar with
          | some _, some fv =>
              if numIn01 fv && fourth.contains '.' then
                let ties := if third ≠ [] && third ≠ chars "0" then some third else none
                (wins, losses, ties, some fourth, some (at_ (5 + offset)),
                 payrollOf (at_ (6 + offset)))
              else
                (wins, losses, none, some third, some fourth,
                 if numCells ≥ 6 + offset then payrollOf (at_ (5 + offset)) else none)
          | _, _ =>
              (wins, losses, none, some third, some fourth, none)
        else
          (wins, losses, none, some (at_ (3 + offset)), some (at_ (4 + offset)), none)
      else
        (none, none, none, none, none, none)
    match fields with
    | (wins, losses, ties, wp, gb, payroll) =>
        some { year := year, league := league, division := division, team := team,
               wins := noneIfEmpty wins, losses := noneIfEmpty losses,
               ties := tiesFinal ties, wp := noneIfEmpty wp,
               gb := noneIfEmpty (cleanGBOpt gb), payroll := noneIfEmpty payroll }

/-- One row of the standings state machine (lines 210-365): threads the
current division label, and either emits a record or skips the row. -/
def standingsRowStep (year league : List Char) (division : List Char)
    (cells : List SCell) : List Char × Option StandingRecord :=
  match cells with
  | [] => (division, none)
  | c0 :: _ =>
      let firstText := pyStrip c0.text
      if truthyAttr c0.rowspan && divisionNames.contains firstText then
        (firstText, none)
      else if hasSub (chars "banner") c0.cls || hasSub (chars "header") c0.cls then
        (division, none)
      else
        match c0.linkText with
        | none => (division, none)
        | some lt =>
            let team := pyStrip lt
            if hasSub (chars "All-Star") team || hasSub (chars "World Series") team then
              (division, none)
            else if team = [] then (division, none)
            else (division, extractStandingsFields year league division team cells)

/-- Model of `extract_team_standings`: fold the row step over the table,
starting in the `Standard` division, collecting emitted records. -/
def extract_team_standings (year league : List Char)
    (rows : List (List SCell)) : List StandingRecord :=
  (rows.foldl
    (fun acc cells =>
      let st := standingsRowStep year league acc.1 cells
      (st.1, acc.2 ++ (match st.2 with | some r => [r] | none => [])))
    (chars "Standard", [])).2

/-! ## common_scraper.py — `extract_player_leaders` -/

/-- A cell as the leader extractor sees it. -/
structure LCell where
  text : List Char
  cls : List Char
  rowspan : Option (List Char)
  deriving DecidableEq, Repr

/-- A placeholder cell for guarded index reads. -/
def dummyLCell : LCell := ⟨[], [], none⟩

/-- A table row: its cells and its own class attribute. -/
structure LRow where
  cells : List LCell
  cls : List Char
  deriving DecidableEq, Repr

/-- One leader line as emitted. -/
structure LeaderRecord where
  year : List Char
  league : List Char
  statistic : List Char
  player : List Char
  team : List Char
  value : List Char
  deriving DecidableEq, Repr

/-- The cross-row state of the leader extractor. -/
structure LState where
  statistic : Option (List Char)
  value : Option (List Char)
  player : Option (List Char)
  deriving DecidableEq, Repr

/-- Truthiness of a Python string-or-None variable. -/
def truthyS (o : Option (List Char)) : Bool :=
  match o with
  | some s => s ≠ []
  | none => false

/-- Player-name cleanup: asterisk markup removed, then stripped. -/
def cleanPlayerName (s : List Char) : List Char :=
  pyStrip ((pyStrip s).filter (fun c => c ≠ '*'))

/-- One row of the leader state machine (lines 112-192): grey, banner and
header rows are skipped; a row with five or more cells whose first cell is
tagged `datacolBlue` starts a group (retaining the player when the player
cell spans more than one row; a malformed rowspan raises after the statistic
and value are already updated, skipping the append); 2-, 1- and 3-cell rows
extend an open group. -/
def leaderRowStep (year league : List Char) (st : LState) (row : LRow) :
    LState × Option LeaderRecord :=
  match row.cells with
  | [] => (st, none)
  | c0 :: _ =>
      let n := row.cells.length
      if hasSub (chars "grey") c0.cls || hasSub (chars "grey") row.cls then (st, none)
      else if hasSub (chars "banner") c0.cls || hasSub (chars "header") c0.cls then (st, none)
      else if n ≥ 5 && hasSub (chars "datacolBlue") c0.cls then
        let stat := pyStrip c0.text
        let pname := cleanPlayerName ((row.cells.getD 1 dummyLCell).text)
        let team := pyStrip ((row.cells.getD 2 dummyLCell).text)
        let value := pyStrip ((row.cells.getD 3 dummyLCell).text)
        match (row.cells.getD 1 dummyLCell).rowspan with
        | some rs =>
            if rs ≠ [] then
              match pyParseInt rs with
              | some k =>
                  (⟨some stat, some value, if k > 1 then some pname else none⟩,
                   some ⟨year, league, stat, pname, team, value⟩)
              | none =>
                  (⟨some stat, some value, st.player⟩, none)
            else
              (⟨some stat, some value, none⟩, some ⟨year, league, stat, pname, team, value⟩)
        | none =>
            (⟨some stat, some value, none⟩, some ⟨year, league, stat, pname, team, value⟩)
      else if n = 2 && truthyS st.statistic && truthyS st.value then
        let pname := cleanPlayerName ((row.cells.getD 0 dummyLCell).text)
        let team := pyStrip ((row.cells.getD 1 dummyLCell).text)
        (st, some ⟨year, league, st.statistic.getD [], pname, team, st.value.getD []⟩)
      else if n = 1 && truthyS st.player && truthyS st.statistic then
        let team := pyStrip c0.text
        (st, some ⟨year, league, st.statistic.getD [], st.player.getD [], team,
                   st.value.getD []⟩)
      else if n = 3 && truthyS st.statistic then
        let pname := cleanPlayerName ((row.cells.getD 0 dummyLCell).text)
        let team := pyStrip ((row.cells.getD 1 dummyLCell).text)
        let value := pyStrip ((row.cells.getD 2 dummyLCell).text)
        (st, some ⟨year, league, st.statistic.getD [], pname, team, value⟩)
      else (st, none)

/-- Model of `extract_player_leaders`: fold the row step, collecting emitted
records. -/
def extract_player_leaders (year league : List Char) (rows : List LRow) :
    List LeaderRecord :=
  (rows.foldl
    (fun acc row =>
      let st := leaderRowStep year league acc.1 row
      (st.1, acc.2 ++ (match st.2 with | some r => [r] | none => [])))
    (⟨none, none, none⟩, [])).2

/-! ## common_scraper.py — `extract_team_stats_complete` -/

/-- A cell as the team-stats extractor sees it. -/
structure TCell where
  text : List Char
  cls : List Char
  linkText : Option (List Char)
  deriving DecidableEq, Repr

/-- A placeholder cell for guarded index reads. -/
def dummyTCell : TCell := ⟨[], [], none⟩

/-- One team-season statistics record: identity fields plus the stat-column
assignments in emission order. -/
structure TeamStatRecord where
  year : List Char
  league : List Char
  team : List Char
  fields : List (List Char × Option (List Char))
  deriving DecidableEq, Repr

/-- The fixed target columns for 2002-2004 pitching tables. -/
def expectedPitchingColumns : List (List Char) :=
  [chars "TEAM", chars "W", chars "L", chars "ERA", chars "G", chars "CG",
   chars "SHO", chars "SV", chars "SVO", chars "IP", chars "HA", chars "R",
   chars "ER", chars "HR", chars "HBP", chars "BB", chars "SO"]

/-- The header-label synonym table for 2002-2004 pitching tables. -/
def pitchColMap (c : List Char) : List Char :=
  if c = chars "H" then chars "HA"
  else if c = chars "SH" then chars "SHO"
  else if c = chars "Team" then chars "TEAM"
  else if c = chars "TEAM" then chars "TEAM"
  else c

/-- Header labels: trimmed banner-cell texts, empty ones dropped. -/
def headerColumns (headerCells : List TCell) : List (List Char) :=
  headerCells.filterMap (fun c =>
    let t := pyStrip c.text
    if t = [] then none else some t)

/-- The dict built by `html_col_to_index`: position of a header label, the
last occurrence winning as with repeated dict assignment. -/
def htmlColToIndex (cols : List (List Char)) (c : List Char) : Option Nat :=
  cols.enum.foldl (fun acc p => if p.2 = c then some p.1 else acc) none

/-- Python `str.upper()` (ASCII). -/
def pyUpper (s : List Char) : List Char := s.map Char.toUpper

/-- Team-name resolution for a stats row: link text preferred, cell text as
fallback. -/
def teamNameOf (c0 : TCell) : List Char :=
  match c0.linkText with
  | some lt => pyStrip lt
  | none => pyStrip c0.text

/-- The common row guards of `extract_team_stats_complete` (lines 494-516):
at least three cells, not a banner/header row, a non-empty team name that is
not an exhibition marker. -/
def teamStatsRowOk (cells : List TCell) : Bool :=
  match cells with
  | [] => false
  | c0 :: _ =>
      cells.length ≥ 3 &&
      !(hasSub (chars "banner") c0.cls || hasSub (chars "header") c0.cls) &&
      (let team := teamNameOf c0
       team ≠ [] &&
       !(hasSub (chars "All-Star") team || hasSub (chars "World Series") team ||
         hasSub (chars "Seasonal Events") team))

/-- Cell value read for a stats column: trimmed text with digit-group commas
removed. -/
def statValueAt (cells : List TCell) (i : Nat) : List Char :=
  replaceAll (chars ",") [] (pyStrip ((cells.getD i dummyTCell).text))

/-- One 2002-2004 pitching data row (lines 527-552): every expected column
except TEAM is filled from the cell at its translated header label's
position, or None when the label (or the cell) is absent. -/
def teamStatsRowEra (year league : List Char) (normCols : List (List Char))
    (cells : List TCell) : Option TeamStatRecord :=
  if teamStatsRowOk cells then
    some { year := year, league := league,
           team := teamNameOf (cells.getD 0 dummyTCell),
           fields := (expectedPitchingColumns.filter (fun c => c ≠ chars "TEAM")).map
             (fun ec =>
               (ec, match htmlColToIndex normCols ec with
                    | some idx =>
                        if idx < cells.length then some (statValueAt cells idx) else none
                    | none => none)) }
  else none

/-- One general data row (lines 554-571): cell i maps to header label i, the
team label excluded, extra labels or cells dropped. -/
def teamStatsRowGeneral (year league : List Char) (htmlCols : List (List Char))
    (cells : List TCell) : Option TeamStatRecord :=
  if teamStatsRowOk cells then
    let maxIdx := min cells.length htmlCols.length
    some { year := year, league := league,
           team := teamNameOf (cells.getD 0 dummyTCell),
           fields := (List.range maxIdx).filterMap
             (fun idx =>
               let colName := htmlCols.getD idx []
               if pyUpper colName ≠ chars "TEAM" then
                 some (colName, some (statValueAt cells idx))
               else none) }
  else none

/-- Model of `extract_team_stats_complete`: read the banner-row labels; for
pitching tables of 2002-2004 translate them through the synonym table and
fill the fixed expected columns by label, otherwise map cells to labels
positionally. -/
def extract_team_stats_complete (year league statsType : List Char)
    (headerCells : List TCell) (rows : List (List TCell)) : List TeamStatRecord :=
  let htmlCols := headerColumns headerCells
  if htmlCols = [] then []
  else if statsType = chars "Pitching" &&
          (year = chars "2002" || year = chars "2003" || year = chars "2004") then
    let normCols := htmlCols.map pitchColMap
    rows.filterMap (teamStatsRowEra year league normCols)
  else
    rows.filterMap (teamStatsRowGeneral year league htmlCols)

/-! ## Helper lemmas: Python string primitives -/

theorem dropWhile_append_single {p : Char → Bool} {c : Char} (hc : p c = false) :
    ∀ xs : List Char, List.dropWhile p (xs ++ [c]) = List.dropWhile p xs ++ [c] := by
  intro xs
  induction xs with
  | nil => simp [List.dropWhile, hc]
  | cons a l ih =>
      by_cases ha : p a
      · simpa [List.dropWhile, ha] using ih
      · simp [List.dropWhile, ha]

theorem rstripC_cons {c : Char} (hc : isPyWS c = false) (r : List Char) :
    rstripC (c :: r) = c :: rstripC r := by
  unfold rstripC
  rw [show (c :: r).reverse = r.reverse ++ [c] by simp]
  rw [dropWhile_append_single hc]
  simp

theorem dropWhile_head_false (p : Char → Bool) :
    ∀ l : List Char, List.dropWhile p l = [] ∨
      ∃ c r, List.dropWhile p l = c :: r ∧ p c = false := by
  intro l
  induction l with
  | nil => exact Or.inl rfl
  | cons a l ih =>
      by_cases ha : p a
      · simpa [List.dropWhile, ha] using ih
      · exact Or.inr ⟨a, l, by simp [List.dropWhile, ha], by simp [ha]⟩

/-- The strip of a list whose first character is not whitespace keeps that
character in front. -/
theorem pyStrip_shape (l : List Char) :
    pyStrip l = [] ∨ ∃ c r, pyStrip l = c :: r ∧ isPyWS c = false := by
  unfold pyStrip lstripC
  rcases dropWhile_head_false isPyWS l with h | ⟨c, r, hcr, hc⟩
  · rw [h]; left; rfl
  · rw [hcr, rstripC_cons hc]
    rcases dropWhile_head_false isPyWS r.reverse with h2 | _
    · right; exact ⟨c, rstripC r, rfl, hc⟩
    · right; exact ⟨c, rstripC r, rfl, hc⟩

theorem lstripC_of_head {c : Char} {r : List Char} (hc : isPyWS c = false) :
    lstripC (c :: r) = c :: r := by
  simp [lstripC, List.dropWhile, hc]

theorem rstripC_getLast :
    ∀ l : List Char, rstripC l = [] ∨
      ∃ c r, rstripC l = r ++ [c] ∧ isPyWS c = false := by
  intro l
  unfold rstripC
  rcases dropWhile_head_false isPyWS l.reverse with h | ⟨c, r, hcr, hc⟩
  · rw [h]; left; rfl
  · rw [hcr]; right; exact ⟨c, r.reverse, by simp, hc⟩

theorem rstripC_append_single {c : Char} (hc : isPyWS c = false) (r : List Char) :
    rstripC (r ++ [c]) = r ++ [c] := by
  unfold rstripC
  rw [List.reverse_append]
  simp only [List.reverse_cons, List.reverse_nil, List.nil_append, List.singleton_append]
  rw [List.dropWhile_cons_of_neg (by simp [hc])]
  simp

theorem lstripC_append_of_head {c : Char} {r : List Char} (hc : isPyWS c = false) :
    lstripC (c :: r) = c :: r := lstripC_of_head hc

/-- A list that neither starts nor ends in whitespace strips to itself. -/
theorem pyStrip_of_edges :
    ∀ l : List Char,
      (∀ c r, l = c :: r → isPyWS c = false) →
      (∀ c r, l = r ++ [c] → isPyWS c = false) →
      pyStrip l = l := by
  intro l hh hl
  match hlshape : l with
  | [] => rfl
  | c :: r =>
      have hc : isPyWS c = false := hh c r rfl
      unfold pyStrip
      rw [lstripC_of_head hc]
      rcases List.eq_nil_or_concat (c :: r) with h | ⟨r2, c2, hcc⟩
      · simp at h
      · rw [List.concat_eq_append] at hcc
        rw [hcc]
        exact rstripC_append_single (hl c2 r2 hcc) r2

theorem pyStrip_idem (l : List Char) : pyStrip (pyStrip l) = pyStrip l := by
  rcases pyStrip_shape l with h | ⟨c, r, hcr, hc⟩
  · rw [h]; rfl
  · apply pyStrip_of_edges
    · intro c2 r2 h2
      rw [hcr] at h2
      cases h2
      exact hc
    · intro c2 r2 h2
      have : pyStrip l = rstripC (lstripC l) := rfl
      rcases rstripC_getLast (lstripC l) with h3 | ⟨c3, r3, h3, hc3⟩
      · rw [this, h3] at h2
        exact absurd h2 (by simp)
      · rw [this, h3] at h2
        have := List.append_inj_right h2 (by
          have e1 : (r3 ++ [c3]).length = (r2 ++ [c2]).length := by rw [h2]
          simp at e1
          simpa using e1)
        cases this
        exact hc3

/-- A list with no whitespace characters strips to itself. -/
theorem pyStrip_of_no_ws {l : List Char} (h : ∀ c ∈ l, isPyWS c = false) :
    pyStrip l = l := by
  apply pyStrip_of_edges
  · intro c r hcr
    exact h c (by rw [hcr]; simp)
  · intro c r hcr
    exact h c (by rw [hcr]; simp)

theorem mem_dropWhile_sub {p : Char → Bool} :
    ∀ l : List Char, ∀ c, c ∈ l.dropWhile p → c ∈ l := by
  intro l
  induction l with
  | nil => intro c hc; simp at hc
  | cons a t ih =>
      intro c hc
      by_cases ha : p a
      · simp only [List.dropWhile_cons, ha, if_true] at hc
        exact List.mem_cons_of_mem a (ih c hc)
      · simp only [List.dropWhile_cons, ha, Bool.false_eq_true, if_false] at hc
        exact hc

theorem mem_pyStrip {c : Char} {l : List Char} (h : c ∈ pyStrip l) : c ∈ l := by
  unfold pyStrip rstripC lstripC at h
  simp only [List.mem_reverse] at h
  have h2 := mem_dropWhile_sub _ c h
  simp only [List.mem_reverse] at h2
  exact mem_dropWhile_sub _ c h2

/-! ## Helper lemmas: decimal digits -/

theorem digitChar_isDigit {d : Nat} (h : d < 10) : isDigitC (digitChar d) = true := by
  interval_cases d <;> decide

theorem digitVal_digitChar {d : Nat} (h : d < 10) : digitVal (digitChar d) = d := by
  interval_cases d <;> decide

theorem natDigits_ne_nil (n : Nat) : natDigits n ≠ [] := by
  rw [natDigits]
  split <;> simp

theorem natDigits_all_digit (n : Nat) : ∀ c ∈ natDigits n, isDigitC c = true := by
  induction n using Nat.strong_induction_on with
  | _ n ih =>
      rw [natDigits]
      split
      · intro c hc
        simp only [List.mem_singleton] at hc
        subst hc
        exact digitChar_isDigit (by omega)
      · intro c hc
        rcases List.mem_append.mp hc with h1 | h2
        · exact ih (n / 10) (Nat.div_lt_self (by omega) (by omega)) c h1
        · simp only [List.mem_singleton] at h2
          subst h2
          exact digitChar_isDigit (Nat.mod_lt _ (by omega))

theorem foldl_digits_shift (ys : List Char) :
    ∀ a : Nat, ys.foldl (fun a c => a * 10 + digitVal c) a =
      a * 10 ^ ys.length + digitsToNat ys := by
  induction ys with
  | nil => intro a; simp [digitsToNat]
  | cons y ys ih =>
      intro a
      have h1 : digitsToNat (y :: ys) = digitVal y * 10 ^ ys.length + digitsToNat ys := by
        unfold digitsToNat
        simp only [List.foldl_cons]
        rw [ih (0 * 10 + digitVal y)]
        unfold digitsToNat
        ring
      simp only [List.foldl_cons]
      rw [ih (a * 10 + digitVal y), h1]
      simp only [List.length_cons]
      ring

theorem digitsToNat_append (xs ys : List Char) :
    digitsToNat (xs ++ ys) = digitsToNat xs * 10 ^ ys.length + digitsToNat ys := by
  unfold digitsToNat
  rw [List.foldl_append]
  exact foldl_digits_shift ys _

theorem digitsToNat_natDigits (n : Nat) : digitsToNat (natDigits n) = n := by
  induction n using Nat.strong_induction_on with
  | _ n ih =>
      rw [natDigits]
      split
      · rename_i h
        simp [digitsToNat, digitVal_digitChar h]
      · rename_i h
        rw [digitsToNat_append]
        rw [ih (n / 10) (Nat.div_lt_self (by omega) (by omega))]
        simp [digitsToNat, digitVal_digitChar (Nat.mod_lt n (show 0 < 10 by omega))]
        omega

theorem digitsToNat_replicate_zero (k : Nat) (ds : List Char) :
    digitsToNat (List.replicate k '0' ++ ds) = digitsToNat ds := by
  rw [digitsToNat_append]
  have h : digitsToNat (List.replicate k '0') = 0 := by
    induction k with
    | zero => rfl
    | succ k ih =>
        rw [List.replicate_succ]
        show digitsToNat ('0' :: List.replicate k '0') = 0
        unfold digitsToNat at ih ⊢
        simpa [digitVal] using ih
  rw [h]
  ring

theorem digit_not_ws {c : Char} (h : isDigitC c = true) : isPyWS c = false := by
  by_contra hcon
  have hw : isPyWS c = true := by
    cases hb : isPyWS c
    · exact absurd hb hcon
    · rfl
  simp only [isPyWS, Bool.or_eq_true, decide_eq_true_eq] at hw
  rcases hw with ((((h1 | h1) | h1) | h1) | h1) | h1 <;>
    (subst h1; exact absurd h (by decide))

theorem digit_ne {c x : Char} (h : isDigitC c = true) (hx : isDigitC x = false) : c ≠ x := by
  intro he
  subst he
  rw [h] at hx
  exact absurd hx (by simp)

/-! ## Helper lemmas: structure of printed numbers -/

theorem takeWhile_all_append {p : Char → Bool} :
    ∀ xs ys : List Char, (∀ c ∈ xs, p c = true) →
      (xs ++ ys).takeWhile p = xs ++ ys.takeWhile p := by
  intro xs ys h
  induction xs with
  | nil => simp
  | cons a l ih =>
      have hpa : p a = true := h a (List.mem_cons_self a l)
      simp only [List.cons_append, List.takeWhile_cons, hpa, if_true]
      rw [ih (fun c hc => h c (List.mem_cons_of_mem a hc))]

theorem dropWhile_all_append {p : Char → Bool} :
    ∀ xs ys : List Char, (∀ c ∈ xs, p c = true) →
      (xs ++ ys).dropWhile p = ys.dropWhile p := by
  intro xs ys h
  induction xs with
  | nil => simp
  | cons a l ih =>
      have hpa : p a = true := h a (List.mem_cons_self a l)
      simp only [List.cons_append, List.dropWhile_cons, hpa, if_true]
      exact ih (fun c hc => h c (List.mem_cons_of_mem a hc))

theorem takeWhile_all {p : Char → Bool} (xs : List Char) (h : ∀ c ∈ xs, p c = true) :
    xs.takeWhile p = xs := by
  have := takeWhile_all_append xs [] h
  simpa using this

theorem dropWhile_all {p : Char → Bool} (xs : List Char) (h : ∀ c ∈ xs, p c = true) :
    xs.dropWhile p = [] := by
  have := dropWhile_all_append xs [] h
  simpa using this

theorem printFloatAbs_chars (m e : Nat) :
    ∀ c ∈ printFloatAbs m e, isDigitC c = true ∨ c = '.' := by
  intro c hc
  unfold printFloatAbs at hc
  have hdsp : ∀ x ∈ List.replicate (e + 1 - (natDigits m).length) '0' ++ natDigits m,
      isDigitC x = true := by
    intro x hx
    rcases List.mem_append.mp hx with h1 | h2
    · rw [List.eq_of_mem_replicate h1]; decide
    · exact natDigits_all_digit m x h2
  rcases List.mem_append.mp hc with h1 | h2
  · exact Or.inl (hdsp c (List.take_subset _ _ h1))
  · rcases List.mem_cons.mp h2 with h3 | h4
    · exact Or.inr h3
    · left
      split at h4
      · simp only [List.mem_singleton] at h4; subst h4; decide
      · exact hdsp c (List.drop_subset _ _ h4)

theorem printNum_chars (fm : Bool) (n : PyNum) :
    ∀ c ∈ printNum fm n, isDigitC c = true ∨ c = '.' ∨ c = '-' := by
  intro c hc
  unfold printNum at hc
  split at hc
  · unfold intDigits at hc
    rcases List.mem_append.mp hc with h1 | h2
    · split at h1
      · simp only [List.mem_singleton] at h1; right; right; exact h1
      · simp at h1
    · exact Or.inl (natDigits_all_digit _ c h2)
  · rcases List.mem_append.mp hc with h1 | h2
    · split at h1
      · simp only [List.mem_singleton] at h1; right; right; exact h1
      · simp at h1
    · rcases printFloatAbs_chars _ _ c h2 with h | h
      · exact Or.inl h
      · exact Or.inr (Or.inl h)

theorem printNum_strip (fm : Bool) (n : PyNum) :
    pyStrip (printNum fm n) = printNum fm n := by
  apply pyStrip_of_no_ws
  intro c hc
  rcases printNum_chars fm n c hc with h | h | h
  · exact digit_not_ws h
  · subst h; decide
  · subst h; decide

/-! ## Helper lemmas: parse / print round trip -/

theorem canonF_idem (e : Nat) : ∀ m : Int, canonF (canonF m e).1 (canonF m e).2 = canonF m e := by
  induction e with
  | zero => intro m; rfl
  | succ e ih =>
      intro m
      show canonF (canonF m (e + 1)).1 (canonF m (e + 1)).2 = canonF m (e + 1)
      by_cases h : m % 10 = 0
      · rw [show canonF m (e + 1) = canonF (m / 10) e by simp [canonF, h]]
        exact ih (m / 10)
      · rw [show canonF m (e + 1) = (m, e + 1) by simp [canonF, h]]
        simp [canonF, h]

theorem canonF_mul10 (m : Int) (e : Nat) : canonF (m * 10) (e + 1) = canonF m e := by
  have h10 : (m * 10) % 10 = 0 := Int.mul_emod_left m 10
  have hdiv : m * 10 / 10 = m := Int.mul_ediv_cancel m (by norm_num)
  simp [canonF, h10, hdiv]

theorem pyParseNum_canon {l : List Char} {n : PyNum} (h : pyParseNum l = some n) :
    isCanon n = true := by
  simp only [pyParseNum] at h
  repeat' split at h
  all_goals
    first
      | exact Option.noConfusion h
      | (rw [Option.some_inj] at h
         subst h
         simp [isCanon, canonF_idem])

theorem pyParseNum_eval_int (sign : Bool) (ds : List Char) (hne : ds ≠ [])
    (hd : ∀ c ∈ ds, isDigitC c = true) :
    pyParseNum ((if sign then ['-'] else []) ++ ds) =
      some ⟨true, (if sign then -(digitsToNat ds : Int) else (digitsToNat ds : Int)), 0⟩ := by
  have hsne : ((if sign then ['-'] else []) ++ ds) ≠ [] := by
    cases sign <;> simp [hne]
  have hstrip : pyStrip ((if sign then ['-'] else []) ++ ds) =
      (if sign then ['-'] else []) ++ ds := by
    apply pyStrip_of_no_ws
    intro c hc
    rcases List.mem_append.mp hc with h1 | h2
    · cases sign
      · simp at h1
      · simp only [if_true] at h1
        simp only [List.mem_singleton] at h1
        subst h1; decide
    · exact digit_not_ws (hd c h2)
  obtain ⟨d0, drest, hds⟩ : ∃ d0 drest, ds = d0 :: drest := by
    cases ds with
    | nil => exact absurd rfl hne
    | cons a l => exact ⟨a, l, rfl⟩
  have hd0 : isDigitC d0 = true := hd d0 (by rw [hds]; simp)
  unfold pyParseNum
  rw [hstrip]
  cases sign
  · simp only [if_neg (by simp : ¬False), Bool.false_eq_true]
    rw [hds]
    simp only [List.nil_append, List.head?_cons]
    have hne1 : (some d0 == some '-') = false := by
      simp only [beq_eq_false_iff_ne, ne_eq, Option.some.injEq]
      exact digit_ne hd0 (by decide)
    have hne2 : (some d0 == some '+') = false := by
      simp only [beq_eq_false_iff_ne, ne_eq, Option.some.injEq]
      exact digit_ne hd0 (by decide)
    rw [hne1, hne2]
    simp only [Bool.or_self, Bool.false_eq_true, if_false]
    rw [takeWhile_all (d0 :: drest) (by rw [← hds]; exact hd)]
    rw [dropWhile_all (d0 :: drest) (by rw [← hds]; exact hd)]
    simp [hds]
  · simp only [if_true, List.singleton_append, List.head?_cons]
    rw [show ((some '-' == some '-') = true) from by decide]
    simp only [Bool.true_or, if_true, List.tail_cons]
    rw [takeWhile_all ds hd, dropWhile_all ds hd]
    simp [hne]

theorem pyParseNum_eval_float (sign : Bool) (ipart fpart : List Char)
    (hip : ipart ≠ [])
    (hipd : ∀ c ∈ ipart, isDigitC c = true) (hfpd : ∀ c ∈ fpart, isDigitC c = true) :
    pyParseNum ((if sign then ['-'] else []) ++ (ipart ++ '.' :: fpart)) =
      some ⟨false,
        (canonF (if sign then
            -((digitsToNat ipart * 10 ^ fpart.length + digitsToNat fpart : Nat) : Int)
          else ((digitsToNat ipart * 10 ^ fpart.length + digitsToNat fpart : Nat) : Int))
          fpart.length).1,
        (canonF (if sign then
            -((digitsToNat ipart * 10 ^ fpart.length + digitsToNat fpart : Nat) : Int)
          else ((digitsToNat ipart * 10 ^ fpart.length + digitsToNat fpart : Nat) : Int))
          fpart.length).2⟩ := by
  have hstrip : pyStrip ((if sign then ['-'] else []) ++ (ipart ++ '.' :: fpart)) =
      (if sign then ['-'] else []) ++ (ipart ++ '.' :: fpart) := by
    apply pyStrip_of_no_ws
    intro c hc
    rw [List.mem_append] at hc
    rcases hc with h1 | h2
    · cases sign
      · simp at h1
      · simp only [List.mem_singleton] at h1
        simp at h1
        subst h1; decide
    · rw [List.mem_append] at h2
      rcases h2 with h3 | h4
      · exact digit_not_ws (hipd c h3)
      · rcases List.mem_cons.mp h4 with h5 | h6
        · subst h5; decide
        · exact digit_not_ws (hfpd c h6)
  obtain ⟨d0, drest, hds⟩ : ∃ d0 drest, ipart = d0 :: drest := by
    cases ipart with
    | nil => exact absurd rfl hip
    | cons a l => exact ⟨a, l, rfl⟩
  have hd0 : isDigitC d0 = true := hipd d0 (by rw [hds]; simp)
  have hhead : (ipart ++ '.' :: fpart).head? = some d0 := by rw [hds]; rfl
  have hne1 : (some d0 == some '-') = false := by
    simp only [beq_eq_false_iff_ne, ne_eq, Option.some.injEq]
    exact digit_ne hd0 (by decide)
  have hne2 : (some d0 == some '+') = false := by
    simp only [beq_eq_false_iff_ne, ne_eq, Option.some.injEq]
    exact digit_ne hd0 (by decide)
  have htw : List.takeWhile isDigitC (ipart ++ '.' :: fpart) = ipart := by
    rw [takeWhile_all_append ipart ('.' :: fpart) hipd]
    rw [List.takeWhile_cons_of_neg (by decide)]
    simp
  have hdw : List.dropWhile isDigitC (ipart ++ '.' :: fpart) = '.' :: fpart := by
    rw [dropWhile_all_append ipart ('.' :: fpart) hipd]
    rw [List.dropWhile_cons_of_neg (by decide)]
  have htw2 : List.takeWhile isDigitC fpart = fpart := takeWhile_all fpart hfpd
  have hdw2 : List.dropWhile isDigitC fpart = [] := dropWhile_all fpart hfpd
  unfold pyParseNum
  rw [hstrip]
  cases sign
  · simp only [Bool.false_eq_true, if_false, List.nil_append]
    rw [hhead, hne1, hne2]
    simp only [Bool.or_self, Bool.false_eq_true, if_false]
    rw [htw, hdw]
    simp only [List.head?_cons, List.tail_cons]
    rw [show ((some '.' == some '.') = true) from by decide]
    simp only [htw2, hdw2]
    simp [hip]
  · simp only [if_true, List.singleton_append, List.head?_cons]
    rw [show ((some '-' == some '-') = true) from by decide]
    simp only [Bool.true_or, if_true, List.tail_cons]
    rw [htw, hdw]
    simp only [List.head?_cons, List.tail_cons]
    rw [show ((some '.' == some '.') = true) from by decide]
    simp only [htw2, hdw2]
    simp [hip]

theorem printFloatAbs_zero (m : Nat) : printFloatAbs m 0 = natDigits m ++ '.' :: ['0'] := by
  simp only [printFloatAbs]
  have h1 : (natDigits m).length ≥ 1 := by
    cases h : natDigits m with
    | nil => exact absurd h (natDigits_ne_nil m)
    | cons a l => simp
  have h2 : 0 + 1 - (natDigits m).length = 0 := by omega
  rw [h2]
  simp

theorem printFloatAbs_pos {e : Nat} (m : Nat) (he : 0 < e) :
    ∃ ipart fpart : List Char,
      printFloatAbs m e = ipart ++ '.' :: fpart ∧
      ipart ≠ [] ∧ fpart ≠ [] ∧
      (∀ c ∈ ipart, isDigitC c = true) ∧ (∀ c ∈ fpart, isDigitC c = true) ∧
      fpart.length = e ∧
      digitsToNat ipart * 10 ^ e + digitsToNat fpart = m := by
  have hlen : (natDigits m).length ≥ 1 := by
    cases h : natDigits m with
    | nil => exact absurd h (natDigits_ne_nil m)
    | cons a l => simp
  set ds := natDigits m with hds
  set dsp := List.replicate (e + 1 - ds.length) '0' ++ ds with hdsp
  have hdspd : ∀ c ∈ dsp, isDigitC c = true := by
    intro c hc
    rcases List.mem_append.mp hc with h1 | h2
    · rw [List.eq_of_mem_replicate h1]; decide
    · exact natDigits_all_digit m c h2
  have hdsplen : dsp.length = (e + 1 - ds.length) + ds.length := by
    rw [hdsp]; simp
  have hge : dsp.length ≥ e + 1 := by omega
  set k := dsp.length - e with hk
  have hk1 : 1 ≤ k := by omega
  have hkle : k ≤ dsp.length := by omega
  refine ⟨dsp.take k, dsp.drop k, ?_, ?_, ?_, ?_, ?_, ?_, ?_⟩
  · simp only [printFloatAbs]
    rw [← hds, ← hdsp, ← hk]
    have hne : dsp.drop k ≠ [] := by
      have : (dsp.drop k).length = dsp.length - k := by simp
      intro hcon
      rw [hcon] at this
      simp at this
      omega
    simp [hne]
  · intro hcon
    have : (dsp.take k).length = k := by
      simp [min_eq_left hkle]
    rw [hcon] at this
    simp at this
    omega
  · intro hcon
    have : (dsp.drop k).length = dsp.length - k := by simp
    rw [hcon] at this
    simp at this
    omega
  · intro c hc; exact hdspd c (List.take_subset _ _ hc)
  · intro c hc; exact hdspd c (List.drop_subset _ _ hc)
  · simp only [List.length_drop]
    omega
  · have hsplit : dsp.take k ++ dsp.drop k = dsp := List.take_append_drop k dsp
    have hval : digitsToNat dsp = m := by
      rw [hdsp, hds, digitsToNat_replicate_zero, digitsToNat_natDigits]
    have hlen2 : (dsp.drop k).length = e := by
      simp only [List.length_drop]; omega
    calc digitsToNat (dsp.take k) * 10 ^ e + digitsToNat (dsp.drop k)
        = digitsToNat (dsp.take k) * 10 ^ (dsp.drop k).length + digitsToNat (dsp.drop k) := by
          rw [hlen2]
      _ = digitsToNat (dsp.take k ++ dsp.drop k) := (digitsToNat_append _ _).symm
      _ = m := by rw [hsplit, hval]

theorem natAbs_cast_of_neg {m : Int} (hm : m < 0) : ((m.natAbs : Int)) = -m :=
  Int.ofNat_natAbs_of_nonpos (le_of_lt hm)

theorem natAbs_cast_of_nonneg {m : Int} (hm : ¬m < 0) : ((m.natAbs : Int)) = m := by
  rw [Int.natAbs_of_nonneg (by omega)]

theorem pyParseNum_float_nosign (ipart fpart : List Char) (hip : ipart ≠ [])
    (hipd : ∀ c ∈ ipart, isDigitC c = true) (hfpd : ∀ c ∈ fpart, isDigitC c = true) :
    pyParseNum (ipart ++ '.' :: fpart) =
      some ⟨false,
        (canonF ((digitsToNat ipart * 10 ^ fpart.length + digitsToNat fpart : Nat) : Int)
          fpart.length).1,
        (canonF ((digitsToNat ipart * 10 ^ fpart.length + digitsToNat fpart : Nat) : Int)
          fpart.length).2⟩ := by
  have h := pyParseNum_eval_float false ipart fpart hip hipd hfpd
  simpa using h

theorem pyParseNum_float_sign (ipart fpart : List Char) (hip : ipart ≠ [])
    (hipd : ∀ c ∈ ipart, isDigitC c = true) (hfpd : ∀ c ∈ fpart, isDigitC c = true) :
    pyParseNum ('-' :: (ipart ++ '.' :: fpart)) =
      some ⟨false,
        (canonF (-((digitsToNat ipart * 10 ^ fpart.length + digitsToNat fpart : Nat) : Int))
          fpart.length).1,
        (canonF (-((digitsToNat ipart * 10 ^ fpart.length + digitsToNat fpart : Nat) : Int))
          fpart.length).2⟩ := by
  have h := pyParseNum_eval_float true ipart fpart hip hipd hfpd
  simpa using h

theorem pyParseNum_int_nosign (ds : List Char) (hne : ds ≠ [])
    (hd : ∀ c ∈ ds, isDigitC c = true) :
    pyParseNum ds = some ⟨true, (digitsToNat ds : Int), 0⟩ := by
  have h := pyParseNum_eval_int false ds hne hd
  simpa using h

theorem pyParseNum_int_sign (ds : List Char) (hne : ds ≠ [])
    (hd : ∀ c ∈ ds, isDigitC c = true) :
    pyParseNum ('-' :: ds) = some ⟨true, -(digitsToNat ds : Int), 0⟩ := by
  have h := pyParseNum_eval_int true ds hne hd
  simpa using h

theorem pyParseNum_printNum {n : PyNum} (fm : Bool) (h : isCanon n = true) :
    pyParseNum (printNum fm n) =
      some (if n.isInt && !fm then n else ⟨false, n.mant, n.fexp⟩) := by
  obtain ⟨bi, bm, be⟩ := n
  cases hb : (bi && !fm)
  · -- printed as a float
    have hprint : printNum fm ⟨bi, bm, be⟩ =
        (if bm < 0 then ['-'] else []) ++ printFloatAbs bm.natAbs be := by
      simp [printNum, hb]
    rw [hprint, if_neg Bool.false_ne_true]
    dsimp only
    rcases Nat.eq_zero_or_pos be with he | he
    · subst he
      rw [printFloatAbs_zero]
      have hzd : ∀ c ∈ (['0'] : List Char), isDigitC c = true := by
        intro c hc; simp at hc; subst hc; decide
      have hcf : canonF (bm * 10) 1 = (bm, 0) := canonF_mul10 bm 0
      by_cases hm : bm < 0
      · rw [if_pos hm, List.singleton_append]
        rw [pyParseNum_float_sign (natDigits bm.natAbs) ['0']
          (natDigits_ne_nil _) (natDigits_all_digit _) hzd]
        have hA : -((digitsToNat (natDigits bm.natAbs) * 10 ^ (['0'] : List Char).length +
            digitsToNat ['0'] : Nat) : Int) = bm * 10 := by
          rw [digitsToNat_natDigits]
          simp only [List.length_singleton, pow_one]
          rw [show digitsToNat ['0'] = 0 from by decide]
          omega
        rw [show (['0'] : List Char).length = 1 from rfl] at hA ⊢
        rw [hA, hcf]
      · rw [if_neg hm, List.nil_append]
        rw [pyParseNum_float_nosign (natDigits bm.natAbs) ['0']
          (natDigits_ne_nil _) (natDigits_all_digit _) hzd]
        have hA : ((digitsToNat (natDigits bm.natAbs) * 10 ^ (['0'] : List Char).length +
            digitsToNat ['0'] : Nat) : Int) = bm * 10 := by
          rw [digitsToNat_natDigits]
          simp only [List.length_singleton, pow_one]
          rw [show digitsToNat ['0'] = 0 from by decide]
          omega
        rw [show (['0'] : List Char).length = 1 from rfl] at hA ⊢
        rw [hA, hcf]
    · -- positive exponent: the number is a canonical float
      have hbi : bi = false := by
        by_contra hbi
        have hbi2 : bi = true := by
          cases bi
          · exact absurd rfl hbi
          · rfl
        rw [isCanon] at h
        simp only [hbi2, if_true] at h
        have : be = 0 := by simpa using h
        omega
      have hcan : canonF bm be = (bm, be) := by
        rw [isCanon] at h
        simp only [hbi, Bool.false_eq_true, if_false] at h
        simpa using h
      obtain ⟨ipart, fpart, hdec, hipne, hfpne, hipd, hfpd, hflen, hfval⟩ :=
        printFloatAbs_pos bm.natAbs he
      rw [hdec]
      by_cases hm : bm < 0
      · rw [if_pos hm, List.singleton_append]
        rw [pyParseNum_float_sign ipart fpart hipne hipd hfpd]
        have hA : -((digitsToNat ipart * 10 ^ fpart.length + digitsToNat fpart : Nat) : Int)
            = bm := by
          rw [hflen, hfval]
          omega
        rw [hA, hflen, hcan]
      · rw [if_neg hm, List.nil_append]
        rw [pyParseNum_float_nosign ipart fpart hipne hipd hfpd]
        have hA : ((digitsToNat ipart * 10 ^ fpart.length + digitsToNat fpart : Nat) : Int)
            = bm := by
          rw [hflen, hfval]
          omega
        rw [hA, hflen, hcan]
  · -- printed as a bare integer
    have hbi : bi = true := by
      cases bi
      · simp at hb
      · rfl
    have hbe : be = 0 := by
      rw [isCanon] at h
      simp only [hbi, if_true] at h
      simpa using h
    have hprint : printNum fm ⟨bi, bm, be⟩ =
        (if bm < 0 then ['-'] else []) ++ natDigits bm.natAbs := by
      simp [printNum, hb, intDigits]
    rw [hprint, if_pos rfl]
    by_cases hm : bm < 0
    · rw [if_pos hm, List.singleton_append]
      rw [pyParseNum_int_sign (natDigits bm.natAbs)
        (natDigits_ne_nil _) (natDigits_all_digit _)]
      rw [digitsToNat_natDigits]
      rw [hbi, hbe]
      congr 2
      omega
    · rw [if_neg hm, List.nil_append]
      rw [pyParseNum_int_nosign (natDigits bm.natAbs)
        (natDigits_ne_nil _) (natDigits_all_digit _)]
      rw [digitsToNat_natDigits]
      rw [hbi, hbe]
      congr 2
      omega

/-! ## Helper lemmas: cell cleaning functions -/

theorem pyStrip_last_shape (l : List Char) :
    pyStrip l = [] ∨ ∃ c r, pyStrip l = r ++ [c] ∧ isPyWS c = false :=
  rstripC_getLast (lstripC l)

theorem pyStrip_prepend {t : List Char} (ht : pyStrip t = t) {c : Char}
    (hc : isPyWS c = false) (hne : t ≠ []) : pyStrip (c :: t) = c :: t := by
  rcases pyStrip_last_shape t with h | ⟨d, r, hdr, hd⟩
  · rw [ht] at h; exact absurd h hne
  · rw [ht] at hdr
    apply pyStrip_of_edges
    · intro c2 r2 h2
      cases h2
      exact hc
    · intro c2 r2 h2
      rw [hdr] at h2
      have h3 : (c :: r) ++ [d] = r2 ++ [c2] := by
        rw [List.cons_append]
        exact h2
      have hlen : (c :: r).length = r2.length := by
        have hlen2 := congrArg List.length h3
        simp only [List.length_append, List.length_cons, List.length_singleton] at hlen2
        simp only [List.length_cons]
        omega
      have h4 : [d] = [c2] := List.append_inj_right h3 hlen
      cases h4
      exact hd


theorem cleanSpecial_no_half (l : List Char) : '½' ∉ cleanSpecialChars l := by
  induction l using cleanSpecialChars.induct with
  | case1 => simp [cleanSpecialChars]
  | case2 rest ih =>
      rw [show cleanSpecialChars
          ('Ã' :: 'ƒ' :: 'â' :: '€' :: 'š' :: 'Ã' :: '‚' :: 'Â' :: '½' :: rest) =
          '.' :: '5' :: cleanSpecialChars rest from rfl]
      intro hmem
      rcases List.mem_cons.mp hmem with h | h
      · exact absurd h (by decide)
      rcases List.mem_cons.mp h with h2 | h2
      · exact absurd h2 (by decide)
      · exact ih h2
  | case3 rest ih =>
      rw [show cleanSpecialChars ('Ã' :: '‚' :: 'Â' :: '½' :: rest) =
          '.' :: '5' :: cleanSpecialChars rest from rfl]
      intro hmem
      rcases List.mem_cons.mp hmem with h | h
      · exact absurd h (by decide)
      rcases List.mem_cons.mp h with h2 | h2
      · exact absurd h2 (by decide)
      · exact ih h2
  | case4 rest ih =>
      rw [show cleanSpecialChars ('Â' :: '½' :: rest) =
          '.' :: '5' :: cleanSpecialChars rest from rfl]
      intro hmem
      rcases List.mem_cons.mp hmem with h | h
      · exact absurd h (by decide)
      rcases List.mem_cons.mp h with h2 | h2
      · exact absurd h2 (by decide)
      · exact ih h2
  | case5 rest ih =>
      rw [show cleanSpecialChars ('½' :: rest) =
          '.' :: '5' :: cleanSpecialChars rest from rfl]
      intro hmem
      rcases List.mem_cons.mp hmem with h | h
      · exact absurd h (by decide)
      rcases List.mem_cons.mp h with h2 | h2
      · exact absurd h2 (by decide)
      · exact ih h2
  | case6 c rest h1 h2 h3 h4 ih =>
      rw [cleanSpecialChars.eq_def]
      split
      · simp
      · rename_i heq
        injection heq with hc hrest
        exact (h1 _ hc hrest).elim
      · rename_i heq
        injection heq with hc hrest
        exact (h2 _ hc hrest).elim
      · rename_i heq
        injection heq with hc hrest
        exact (h3 _ hc hrest).elim
      · rename_i heq
        injection heq with hc hrest
        exact (h4 hc).elim
      · rename_i c2 rest2 heq
        injection heq with hc hrest
        subst hc
        subst hrest
        intro hmem
        rcases List.mem_cons.mp hmem with h | h
        · exact h4 h.symm
        · exact ih h

theorem cleanSpecial_id_of_no_half {l : List Char} (h : '½' ∉ l) :
    cleanSpecialChars l = l := by
  induction l using cleanSpecialChars.induct with
  | case1 => rfl
  | case2 rest ih => exact absurd (by simp) h
  | case3 rest ih => exact absurd (by simp) h
  | case4 rest ih => exact absurd (by simp) h
  | case5 rest ih => exact absurd (by simp) h
  | case6 c rest h1 h2 h3 h4 ih =>
      have hch : cleanSpecialChars (c :: rest) = c :: cleanSpecialChars rest := by
        rw [cleanSpecialChars.eq_def]
        split
        · rename_i heq
          exact List.noConfusion heq
        · rename_i heq
          injection heq with hc hrest
          exact (h1 _ hc hrest).elim
        · rename_i heq
          injection heq with hc hrest
          exact (h2 _ hc hrest).elim
        · rename_i heq
          injection heq with hc hrest
          exact (h3 _ hc hrest).elim
        · rename_i heq
          injection heq with hc hrest
          exact (h4 hc).elim
        · rename_i c2 rest2 heq
          injection heq with hc hrest
          subst hc
          subst hrest
          rfl
      rw [hch]
      have hrest2 : '½' ∉ rest := fun hm => h (List.mem_cons_of_mem c hm)
      rw [ih hrest2]

theorem mem_cleanSpecial {c : Char} : ∀ {l : List Char},
    c ∈ cleanSpecialChars l → c ∈ l ∨ c = '.' ∨ c = '5' := by
  intro l
  induction l using cleanSpecialChars.induct with
  | case1 =>
      intro h
      rw [show cleanSpecialChars ([] : List Char) = [] from rfl] at h
      simp at h
  | case2 rest ih =>
      intro h
      rw [show cleanSpecialChars
          ('Ã' :: 'ƒ' :: 'â' :: '€' :: 'š' :: 'Ã' :: '‚' :: 'Â' :: '½' :: rest) =
          '.' :: '5' :: cleanSpecialChars rest from rfl] at h
      rcases List.mem_cons.mp h with h2 | h2
      · exact Or.inr (Or.inl h2)
      rcases List.mem_cons.mp h2 with h3 | h3
      · exact Or.inr (Or.inr h3)
      · rcases ih h3 with h4 | h4
        · exact Or.inl (by simp [h4])
        · exact Or.inr h4
  | case3 rest ih =>
      intro h
      rw [show cleanSpecialChars ('Ã' :: '‚' :: 'Â' :: '½' :: rest) =
          '.' :: '5' :: cleanSpecialChars rest from rfl] at h
      rcases List.mem_cons.mp h with h2 | h2
      · exact Or.inr (Or.inl h2)
      rcases List.mem_cons.mp h2 with h3 | h3
      · exact Or.inr (Or.inr h3)
      · rcases ih h3 with h4 | h4
        · exact Or.inl (by simp [h4])
        · exact Or.inr h4
  | case4 rest ih =>
      intro h
      rw [show cleanSpecialChars ('Â' :: '½' :: rest) =
          '.' :: '5' :: cleanSpecialChars rest from rfl] at h
      rcases List.mem_cons.mp h with h2 | h2
      · exact Or.inr (Or.inl h2)
      rcases List.mem_cons.mp h2 with h3 | h3
      · exact Or.inr (Or.inr h3)
      · rcases ih h3 with h4 | h4
        · exact Or.inl (by simp [h4])
        · exact Or.inr h4
  | case5 rest ih =>
      intro h
      rw [show cleanSpecialChars ('½' :: rest) =
          '.' :: '5' :: cleanSpecialChars rest from rfl] at h
      rcases List.mem_cons.mp h with h2 | h2
      · exact Or.inr (Or.inl h2)
      rcases List.mem_cons.mp h2 with h3 | h3
      · exact Or.inr (Or.inr h3)
      · rcases ih h3 with h4 | h4
        · exact Or.inl (by simp [h4])
        · exact Or.inr h4
  | case6 a rest h1 h2 h3 h4 ih =>
      intro h
      have hch : cleanSpecialChars (a :: rest) = a :: cleanSpecialChars rest := by
        rw [cleanSpecialChars.eq_def]
        split
        · rename_i heq
          exact List.noConfusion heq
        · rename_i heq
          injection heq with hc hrest
          exact (h1 _ hc hrest).elim
        · rename_i heq
          injection heq with hc hrest
          exact (h2 _ hc hrest).elim
        · rename_i heq
          injection heq with hc hrest
          exact (h3 _ hc hrest).elim
        · rename_i heq
          injection heq with hc hrest
          exact (h4 hc).elim
        · rename_i c2 rest2 heq
          injection heq with hc hrest
          subst hc
          subst hrest
          rfl
      rw [hch] at h
      rcases List.mem_cons.mp h with h2 | h2
      · exact Or.inl (by simp [h2])
      · rcases ih h2 with h4 | h4
        · exact Or.inl (List.mem_cons_of_mem a h4)
        · exact Or.inr h4

theorem pyStrip_replace_head {x y : Char} {tail : List Char} (hy : isPyWS y = false)
    (h : pyStrip (x :: tail) = x :: tail) (hne : tail ≠ []) :
    pyStrip (y :: tail) = y :: tail := by
  rcases pyStrip_last_shape (x :: tail) with hsh | ⟨d, r, hdr, hd⟩
  · rw [h] at hsh; exact List.noConfusion hsh
  · rw [h] at hdr
    have hrne : r ≠ [] := by
      intro hcon
      rw [hcon] at hdr
      simp at hdr
      exact hne hdr.2
    obtain ⟨r0, r1, hr⟩ : ∃ r0 r1, r = r0 :: r1 := by
      cases r with
      | nil => exact absurd rfl hrne
      | cons a l => exact ⟨a, l, rfl⟩
    rw [hr] at hdr
    have htail : tail = r1 ++ [d] := by
      have := List.tail_eq_of_cons_eq hdr
      simpa using this
    apply pyStrip_of_edges
    · intro c2 r2 h2
      cases h2
      exact hy
    · intro c2 r2 h2
      rw [htail] at h2
      have h3 : (y :: r1) ++ [d] = r2 ++ [c2] := by
        rw [List.cons_append]
        exact h2
      have hlen : (y :: r1).length = r2.length := by
        have hlen2 := congrArg List.length h3
        simp only [List.length_append, List.length_cons, List.length_singleton] at hlen2
        simp only [List.length_cons]
        omega
      have h4 : [d] = [c2] := List.append_inj_right h3 hlen
      cases h4
      exact hd

theorem standardize_head_cases (s : List Char) :
    (((pyStrip s).head? == some ',' && decide ((pyStrip s).length > 1)) = false ∧
     ((pyStrip s).head? == some '.' && decide ((pyStrip s).length > 1)) = false ∧
     standardizeDecimalC s = pyStrip s) ∨
    (∃ tail, pyStrip s = '.' :: tail ∧ standardizeDecimalC s = '0' :: '.' :: tail) ∨
    (∃ tail, pyStrip s = ',' :: tail ∧ tail ≠ [] ∧
      standardizeDecimalC s = '0' :: '.' :: tail) := by
  simp only [standardizeDecimalC]
  by_cases hc1 : ((pyStrip s).head? == some ',' && decide ((pyStrip s).length > 1)) = true
  · rw [if_pos hc1]
    rcases (Bool.and_eq_true _ _).mp hc1 with ⟨hh, hl⟩
    have hh2 : (pyStrip s).head? = some ',' := by
      exact beq_iff_eq.mp hh
    obtain ⟨tail, ht⟩ : ∃ tail, pyStrip s = ',' :: tail := by
      cases hps : pyStrip s with
      | nil => rw [hps] at hh2; exact Option.noConfusion hh2
      | cons a l =>
          rw [hps] at hh2
          simp only [List.head?_cons, Option.some.injEq] at hh2
          exact ⟨l, by rw [hh2]⟩
    have htl : tail ≠ [] := by
      rw [ht] at hl
      simp at hl
      intro hcon
      rw [hcon] at hl
      simp at hl
    rw [ht]
    simp only [List.tail_cons, List.head?_cons]
    have hcond2 : ((some '.' == some '.') && decide (('.' :: tail).length > 1)) = true := by
      simp only [List.length_cons]
      have : tail.length ≥ 1 := by
        cases tail with
        | nil => exact absurd rfl htl
        | cons a l => simp
      simp [beq_iff_eq]
      omega
    rw [if_pos hcond2]
    right; right
    exact ⟨tail, rfl, htl, rfl⟩
  · rw [if_neg hc1]
    by_cases hc2 : ((pyStrip s).head? == some '.' && decide ((pyStrip s).length > 1)) = true
    · rw [if_pos hc2]
      rcases (Bool.and_eq_true _ _).mp hc2 with ⟨hh, _⟩
      have hh2 : (pyStrip s).head? = some '.' := beq_iff_eq.mp hh
      obtain ⟨tail, ht⟩ : ∃ tail, pyStrip s = '.' :: tail := by
        cases hps : pyStrip s with
        | nil => rw [hps] at hh2; exact Option.noConfusion hh2
        | cons a l =>
            rw [hps] at hh2
            simp only [List.head?_cons, Option.some.injEq] at hh2
            exact ⟨l, by rw [hh2]⟩
      right; left
      exact ⟨tail, ht, by rw [ht]⟩
    · rw [if_neg hc2]
      left
      exact ⟨Bool.eq_false_iff.mpr hc1, Bool.eq_false_iff.mpr hc2, rfl⟩

theorem standardize_stripped (s : List Char) :
    pyStrip (standardizeDecimalC s) = standardizeDecimalC s := by
  rcases standardize_head_cases s with ⟨_, _, h⟩ | ⟨tail, ht, h⟩ | ⟨tail, ht, htl, h⟩
  · rw [h]
    exact pyStrip_idem s
  · rw [h]
    have hst : pyStrip ('.' :: tail) = '.' :: tail := by
      rw [← ht]
      exact pyStrip_idem s
    exact pyStrip_prepend hst (by decide) (by simp)
  · rw [h]
    have hst : pyStrip (',' :: tail) = ',' :: tail := by
      rw [← ht]
      exact pyStrip_idem s
    have hdot : pyStrip ('.' :: tail) = '.' :: tail :=
      pyStrip_replace_head (by decide) hst htl
    exact pyStrip_prepend hdot (by decide) (by simp)

theorem standardize_id_of_head {s : List Char} (hs : pyStrip s = s)
    (h1 : s.head? ≠ some ',') (h2 : s.head? ≠ some '.') :
    standardizeDecimalC s = s := by
  simp only [standardizeDecimalC]
  rw [hs]
  have hb1 : (s.head? == some ',' && decide (s.length > 1)) = false := by
    have : (s.head? == some ',') = false := beq_eq_false_iff_ne.mpr h1
    rw [this]
    rfl
  have hb2 : (s.head? == some '.' && decide (s.length > 1)) = false := by
    have : (s.head? == some '.') = false := beq_eq_false_iff_ne.mpr h2
    rw [this]
    rfl
  have ht2 : (if (s.head? == some ',' && decide (s.length > 1)) = true
      then '.' :: s.tail else s) = s := by
    rw [hb1]; simp
  rw [ht2]
  rw [if_neg (by rw [hb2]; exact Bool.false_ne_true)]

theorem standardize_idem (s : List Char) :
    standardizeDecimalC (standardizeDecimalC s) = standardizeDecimalC s := by
  rcases standardize_head_cases s with ⟨hb1, hb2, h⟩ | ⟨tail, ht, h⟩ | ⟨tail, ht, htl, h⟩
  · rw [h]
    simp only [standardizeDecimalC]
    rw [pyStrip_idem s]
    have ht2 : (if ((pyStrip s).head? == some ',' && decide ((pyStrip s).length > 1)) = true
        then '.' :: (pyStrip s).tail else pyStrip s) = pyStrip s := by
      rw [hb1]; simp
    rw [ht2]
    rw [if_neg (by rw [hb2]; exact Bool.false_ne_true)]
  · rw [h]
    apply standardize_id_of_head
    · have hst : pyStrip ('.' :: tail) = '.' :: tail := by
        rw [← ht]; exact pyStrip_idem s
      exact pyStrip_prepend hst (by decide) (by simp)
    · simp
    · simp
  · rw [h]
    apply standardize_id_of_head
    · have hst : pyStrip (',' :: tail) = ',' :: tail := by
        rw [← ht]; exact pyStrip_idem s
      have hdot : pyStrip ('.' :: tail) = '.' :: tail :=
        pyStrip_replace_head (by decide) hst htl
      exact pyStrip_prepend hdot (by decide) (by simp)
    · simp
    · simp

theorem mem_standardize {c : Char} {s : List Char} (h : c ∈ standardizeDecimalC s) :
    c ∈ s ∨ c = '0' ∨ c = '.' := by
  rcases standardize_head_cases s with ⟨_, _, he⟩ | ⟨tail, ht, he⟩ | ⟨tail, ht, _, he⟩
  · rw [he] at h
    exact Or.inl (mem_pyStrip h)
  · rw [he] at h
    rcases List.mem_cons.mp h with h2 | h2
    · exact Or.inr (Or.inl h2)
    · have : c ∈ pyStrip s := by rw [ht]; exact h2
      exact Or.inl (mem_pyStrip this)
  · rw [he] at h
    rcases List.mem_cons.mp h with h2 | h2
    · exact Or.inr (Or.inl h2)
    rcases List.mem_cons.mp h2 with h3 | h3
    · exact Or.inr (Or.inr h3)
    · have : c ∈ pyStrip s := by rw [ht]; exact List.mem_cons_of_mem ',' h3
      exact Or.inl (mem_pyStrip this)

theorem getLast?_mem_own : ∀ (l : List Char) (a : Char), l.getLast? = some a → a ∈ l := by
  intro l
  induction l with
  | nil => intro a h; simp at h
  | cons x xs ih =>
      intro a h
      cases xs with
      | nil =>
          simp only [List.getLast?_singleton, Option.some.injEq] at h
          simp [h]
      | cons y ys =>
          rw [List.getLast?_cons_cons] at h
          exact List.mem_cons_of_mem _ (ih a h)

theorem cleanQuestion_id {s : List Char} (hs : pyStrip s = s)
    (h : s.getLast? ≠ some '?') : cleanQuestionC s = s := by
  simp only [cleanQuestionC]
  rw [hs]
  rw [if_neg h]

theorem cleanAst_no_star (s : List Char) : '*' ∉ cleanAsterisksC s := by
  intro h
  have h2 := mem_pyStrip h
  rcases List.mem_filter.mp h2 with ⟨_, hp⟩
  simp at hp

theorem mem_cleanAst {c : Char} {s : List Char} (h : c ∈ cleanAsterisksC s) : c ∈ s := by
  have h2 := mem_pyStrip h
  exact (List.mem_filter.mp h2).1

theorem cleanAst_id {s : List Char} (hs : pyStrip s = s) (h : '*' ∉ s) :
    cleanAsterisksC s = s := by
  unfold cleanAsterisksC
  rw [List.filter_eq_self.mpr (fun a ha => by
    simp only [ne_eq, decide_eq_true_eq]
    intro hcon
    rw [hcon] at ha
    exact h ha)]
  exact hs

/-! ## Helper lemmas: dedup and filtering -/

theorem contains_iff {b : Type} [DecidableEq b] (l : List b) (x : b) :
    l.contains x = true ↔ x ∈ l := List.elem_iff

theorem dedupByKeyAux_congr {α β : Type} [DecidableEq β] (key : α → β) :
    ∀ (l : List α) (s1 s2 : List β), (∀ b, b ∈ s1 ↔ b ∈ s2) →
      dedupByKeyAux key l s1 = dedupByKeyAux key l s2 := by
  intro l
  induction l with
  | nil => intro s1 s2 _; rfl
  | cons x xs ih =>
      intro s1 s2 hs
      simp only [dedupByKeyAux]
      by_cases h1 : s1.contains (key x)
      · have h2 : s2.contains (key x) = true := by
          rw [contains_iff] at h1 ⊢
          exact (hs _).mp h1
        rw [h1, h2]
        simp only [if_true]
        exact ih s1 s2 hs
      · have h1f : s1.contains (key x) = false := Bool.eq_false_iff.mpr h1
        have h2 : s2.contains (key x) = false := by
          rw [Bool.eq_false_iff]
          intro hcon
          apply h1
          rw [contains_iff] at hcon ⊢
          exact (hs _).mpr hcon
        rw [h1f, h2]
        simp only [Bool.false_eq_true, if_false]
        rw [ih (key x :: s1) (key x :: s2) (fun b => by simp [hs b])]

theorem dedupByKeyAux_all_seen {α β : Type} [DecidableEq β] (key : α → β) :
    ∀ (l : List α) (seen : List β), (∀ x ∈ l, key x ∈ seen) →
      dedupByKeyAux key l seen = [] := by
  intro l
  induction l with
  | nil => intro seen _; rfl
  | cons x xs ih =>
      intro seen h
      simp only [dedupByKeyAux]
      have hx : seen.contains (key x) = true := by
        rw [contains_iff]
        exact h x (by simp)
      rw [hx]
      simp only [if_true]
      exact ih seen (fun y hy => h y (by simp [hy]))

theorem dedupByKeyAux_nodup {α β : Type} [DecidableEq β] (key : α → β) :
    ∀ (l : List α) (seen : List β), (l.map key).Nodup → (∀ x ∈ l, key x ∉ seen) →
      dedupByKeyAux key l seen = l := by
  intro l
  induction l with
  | nil => intro seen _ _; rfl
  | cons x xs ih =>
      intro seen hnd hns
      simp only [dedupByKeyAux]
      have hx : seen.contains (key x) = false := by
        rw [Bool.eq_false_iff]
        intro hcon
        rw [contains_iff] at hcon
        exact hns x (by simp) hcon
      rw [hx]
      simp only [Bool.false_eq_true, if_false]
      simp only [List.map_cons, List.nodup_cons] at hnd
      rw [ih (key x :: seen) hnd.2 (fun y hy => by
        simp only [List.mem_cons]
        push_neg
        constructor
        · intro hcon
          exact hnd.1 (by rw [← hcon]; exact List.mem_map_of_mem key hy)
        · exact hns y (by simp [hy]))]

theorem dedupByKeyAux_append {α β : Type} [DecidableEq β] (key : α → β) :
    ∀ (l1 l2 : List α) (seen : List β),
      dedupByKeyAux key (l1 ++ l2) seen =
        dedupByKeyAux key l1 seen ++ dedupByKeyAux key l2 (l1.map key ++ seen) := by
  intro l1
  induction l1 with
  | nil => intro l2 seen; rfl
  | cons x xs ih =>
      intro l2 seen
      simp only [List.cons_append, dedupByKeyAux]
      by_cases h1 : seen.contains (key x)
      · have hxmem : key x ∈ seen := (contains_iff seen (key x)).mp h1
        rw [h1]
        simp only [if_true]
        rw [show xs.append l2 = xs ++ l2 from rfl, ih l2 seen]
        congr 1
        apply dedupByKeyAux_congr
        intro b
        simp only [List.map_cons, List.cons_append, List.mem_cons, List.mem_append]
        constructor
        · tauto
        · intro h
          rcases h with h | h | h
          · rw [h]; exact Or.inr hxmem
          · exact Or.inl h
          · exact Or.inr h
      · rw [Bool.eq_false_iff.mpr h1]
        simp only [Bool.false_eq_true, if_false, List.cons_append]
        congr 1
        rw [show xs.append l2 = xs ++ l2 from rfl, ih l2 (key x :: seen)]
        congr 1
        apply dedupByKeyAux_congr
        intro b
        simp only [List.map_cons, List.cons_append, List.mem_cons, List.mem_append]
        tauto

theorem dedupByKey_nodup_id {α β : Type} [DecidableEq β] (key : α → β) (l : List α)
    (h : (l.map key).Nodup) : dedupByKey key l = l :=
  dedupByKeyAux_nodup key l [] h (by simp)

theorem dedupByKey_self_append {α β : Type} [DecidableEq β] (key : α → β) (l : List α)
    (h : (l.map key).Nodup) : dedupByKey key (l ++ l) = l := by
  unfold dedupByKey
  rw [dedupByKeyAux_append]
  rw [dedupByKeyAux_nodup key l [] h (by simp)]
  rw [dedupByKeyAux_all_seen key l (l.map key ++ []) (fun x hx => by
    simp only [List.append_nil]
    exact List.mem_map_of_mem key hx)]
  simp

theorem dedupByKey_append_dups {α β : Type} [DecidableEq β] (key : α → β) (l : List α) :
    dedupByKey key (l ++ l) = dedupByKey key l := by
  unfold dedupByKey
  rw [dedupByKeyAux_append]
  rw [dedupByKeyAux_all_seen key l (l.map key ++ []) (fun x hx => by
    simp only [List.append_nil]
    exact List.mem_map_of_mem key hx)]
  simp

/-! ## Helper lemmas: table round trip -/

theorem range_map_getD {α : Type} (l : List α) (d : α) :
    (List.range l.length).map (fun j => l.getD j d) = l := by
  induction l with
  | nil => rfl
  | cons x xs ih =>
      rw [List.length_cons, List.range_succ_eq_map]
      simp only [List.map_cons, List.map_map]
      rw [show ((fun j => (x :: xs).getD j d) ∘ (· + 1)) = (fun j => xs.getD j d) from
        funext fun _ => rfl]
      rw [ih]
      rfl

theorem foldr_max_const : ∀ (l : List Nat) (m : Nat), l ≠ [] → (∀ x ∈ l, x = m) →
    l.foldr max 0 = m := by
  intro l
  induction l with
  | nil => intro m h _; exact absurd rfl h
  | cons x xs ih =>
      intro m _ hall
      have hx : x = m := hall x (by simp)
      cases hxs : xs with
      | nil => simp [hx]
      | cons y ys =>
          rw [← hxs]
          simp only [List.foldr_cons]
          rw [ih m (by rw [hxs]; simp) (fun z hz => hall z (by simp [hz])), hx]
          simp

theorem getD_map_col {α β : Type} (l : List α) (i : Nat) (hi : i < l.length)
    (f : α → β) (d : α) (d2 : β) : (l.map f).getD i d2 = f (l.getD i d) := by
  have h1 : l.get? i = some (l.get ⟨i, hi⟩) := List.get?_eq_get hi
  show ((l.map f).get? i).getD d2 = f ((l.get? i).getD d)
  rw [List.get?_map, h1]
  rfl

theorem getD_mem_of_lt {α : Type} (l : List α) (i : Nat) (hi : i < l.length) (d : α) :
    l.getD i d ∈ l := by
  have h1 : l.get? i = some (l.get ⟨i, hi⟩) := List.get?_eq_get hi
  show (l.get? i).getD d ∈ l
  rw [h1]
  show l.get ⟨i, hi⟩ ∈ l
  exact List.get_mem l i hi

theorem toColumns_toRows (colsData : List (List CsvCell)) (m : Nat)
    (hne : colsData ≠ []) (h : ∀ c ∈ colsData, c.length = m) :
    toColumns colsData.length (toRows colsData) = colsData := by
  have hmax : (colsData.map List.length).foldr max 0 = m := by
    apply foldr_max_const
    · intro hcon
      rw [List.map_eq_nil_iff] at hcon
      exact hne hcon
    · intro x hx
      rcases List.mem_map.mp hx with ⟨c, hc, hlen⟩
      rw [← hlen]
      exact h c hc
  simp only [toRows, toColumns]
  rw [hmax]
  have hcongr : ∀ i ∈ List.range colsData.length,
      (List.map (fun j => colsData.map (fun c => c.getD j none)) (List.range m)).map
        (fun r => r.getD i none) = colsData.getD i [] := by
    intro i hi
    have hilt : i < colsData.length := List.mem_range.mp hi
    rw [List.map_map]
    have hpt : ∀ j ∈ List.range m,
        ((fun r => r.getD i none) ∘ (fun j => colsData.map (fun c => c.getD j none))) j =
          (colsData.getD i []).getD j none := by
      intro j _
      show (colsData.map (fun c => c.getD j none)).getD i none = (colsData.getD i []).getD j none
      exact getD_map_col colsData i hilt (fun c => c.getD j none) [] none
    rw [List.map_congr_left hpt]
    have hlen2 : (colsData.getD i []).length = m :=
      h (colsData.getD i []) (getD_mem_of_lt colsData i hilt [])
    rw [← hlen2]
    exact range_map_getD (colsData.getD i []) none
  rw [List.map_congr_left hcongr]
  exact range_map_getD colsData []

/-! ## Helper lemmas: column pipeline idempotence -/

theorem printFloatAbs_head (m e : Nat) :
    ∃ c rest, printFloatAbs m e = c :: rest ∧ isDigitC c = true := by
  rcases Nat.eq_zero_or_pos e with he | he
  · subst he
    rw [printFloatAbs_zero]
    obtain ⟨c, rest, hds⟩ : ∃ c rest, natDigits m = c :: rest := by
      cases h : natDigits m with
      | nil => exact absurd h (natDigits_ne_nil m)
      | cons a l => exact ⟨a, l, rfl⟩
    refine ⟨c, rest ++ '.' :: ['0'], ?_, ?_⟩
    · rw [hds]; rfl
    · exact natDigits_all_digit m c (by rw [hds]; simp)
  · obtain ⟨ipart, fpart, hdec, hipne, _, hipd, _, _, _⟩ := printFloatAbs_pos m he
    obtain ⟨c, rest, hip⟩ : ∃ c rest, ipart = c :: rest := by
      cases h : ipart with
      | nil => exact absurd h hipne
      | cons a l => exact ⟨a, l, rfl⟩
    refine ⟨c, rest ++ '.' :: fpart, ?_, ?_⟩
    · rw [hdec, hip]; rfl
    · exact hipd c (by rw [hip]; simp)

theorem printNum_head (fm : Bool) (n : PyNum) :
    ∃ c rest, printNum fm n = c :: rest ∧ (isDigitC c = true ∨ c = '-') := by
  unfold printNum
  split
  · unfold intDigits
    by_cases hm : n.mant < 0
    · rw [if_pos hm]
      exact ⟨'-', natDigits n.mant.natAbs, rfl, Or.inr rfl⟩
    · rw [if_neg hm, List.nil_append]
      obtain ⟨c, rest, hds⟩ : ∃ c rest, natDigits n.mant.natAbs = c :: rest := by
        cases h : natDigits n.mant.natAbs with
        | nil => exact absurd h (natDigits_ne_nil _)
        | cons a l => exact ⟨a, l, rfl⟩
      exact ⟨c, rest, hds, Or.inl (natDigits_all_digit _ c (by rw [hds]; simp))⟩
  · by_cases hm : n.mant < 0
    · rw [if_pos hm, List.singleton_append]
      exact ⟨'-', printFloatAbs n.mant.natAbs n.fexp, rfl, Or.inr rfl⟩
    · rw [if_neg hm, List.nil_append]
      obtain ⟨c, rest, hpf, hd⟩ := printFloatAbs_head n.mant.natAbs n.fexp
      exact ⟨c, rest, hpf, Or.inl hd⟩

theorem printNum_ne_nil (fm : Bool) (n : PyNum) : printNum fm n ≠ [] := by
  obtain ⟨c, rest, h, _⟩ := printNum_head fm n
  rw [h]
  simp

theorem printNum_no_half (fm : Bool) (n : PyNum) : '½' ∉ printNum fm n := by
  intro h
  rcases printNum_chars fm n '½' h with hc | hc | hc
  · exact absurd hc (by decide)
  · exact absurd hc (by decide)
  · exact absurd hc (by decide)

theorem printNum_last_ne_q (fm : Bool) (n : PyNum) :
    (printNum fm n).getLast? ≠ some '?' := by
  intro h
  have hm := getLast?_mem_own _ _ h
  rcases printNum_chars fm n '?' hm with hc | hc | hc
  · exact absurd hc (by decide)
  · exact absurd hc (by decide)
  · exact absurd hc (by decide)

theorem printNum_no_star (fm : Bool) (n : PyNum) : '*' ∉ printNum fm n := by
  intro h
  rcases printNum_chars fm n '*' h with hc | hc | hc
  · exact absurd hc (by decide)
  · exact absurd hc (by decide)
  · exact absurd hc (by decide)

theorem printNum_standardize (fm : Bool) (n : PyNum) :
    standardizeDecimalC (printNum fm n) = printNum fm n := by
  obtain ⟨c, rest, hpr, hcls⟩ := printNum_head fm n
  apply standardize_id_of_head (printNum_strip fm n)
  · rw [hpr]
    simp only [List.head?_cons, ne_eq, Option.some.injEq]
    rcases hcls with h | h
    · exact digit_ne h (by decide)
    · rw [h]; decide
  · rw [hpr]
    simp only [List.head?_cons, ne_eq, Option.some.injEq]
    rcases hcls with h | h
    · exact digit_ne h (by decide)
    · rw [h]; decide

theorem omap_id {f : List Char → List Char} {v : CsvCell}
    (h : ∀ s, v = some s → f s = s) : Option.map f v = v := by
  cases v with
  | none => rfl
  | some s => simp [h s rfl]

theorem map_omap_id {f : List Char → List Char} {l : List CsvCell}
    (h : ∀ v ∈ l, ∀ s, v = some s → f s = s) : l.map (Option.map f) = l := by
  have h2 : ∀ v ∈ l, Option.map f v = id v := fun v hv => omap_id (h v hv)
  rw [List.map_congr_left h2, List.map_id]

theorem cleanColumnPre_id (name : List Char) (out : List CsvCell)
    (h1 : ∀ v ∈ out, ∀ s, v = some s → pyStrip s = s)
    (h2 : ∀ v ∈ out, ∀ s, v = some s → pyStrip s ≠ chars "--")
    (h3 : ∀ v ∈ out, ∀ s, v = some s → '½' ∉ s)
    (h4 : numericLikeColumns.contains name = true →
      ∀ v ∈ out, ∀ s, v = some s → s.getLast? ≠ some '?')
    (h5 : isNameColumn name = true → ∀ v ∈ out, ∀ s, v = some s → '*' ∉ s)
    (h6 : isDecimalFormatColumn name = true →
      ∀ v ∈ out, ∀ s, v = some s → standardizeDecimalC s = s) :
    cleanColumnPre name out = out := by
  have e3 : out.map (Option.map cleanSpecialChars) = out :=
    map_omap_id (fun v hv s hs => cleanSpecial_id_of_no_half (h3 v hv s hs))
  have e7 : out.map (Option.map pyStrip) = out :=
    map_omap_id (fun v hv s hs => h1 v hv s hs)
  have h4e : (if (numericLikeColumns.contains name &&
      out.any fun v => (v.getD []).contains '?') = true
      then out.map (Option.map cleanQuestionC) else out) = out := by
    by_cases hnl : numericLikeColumns.contains name = true
    · rw [map_omap_id (fun v hv s hs => cleanQuestion_id (h1 v hv s hs) (h4 hnl v hv s hs))]
      exact ite_self out
    · exact if_neg (fun hcon => hnl ((Bool.and_eq_true _ _).mp hcon).1)
  have h5e : (if (out.any isDashCell) = true
      then out.map clean_placeholder_values else out) = out := by
    apply if_neg
    intro hcon
    rcases List.any_eq_true.mp hcon with ⟨v, hv, hp⟩
    cases v with
    | none => simp [isDashCell] at hp
    | some s =>
        simp only [isDashCell, decide_eq_true_eq] at hp
        exact (h2 (some s) hv s rfl) hp
  have h6e : (if (isNameColumn name &&
      out.any fun v => (v.getD []).contains '*') = true
      then out.map (Option.map cleanAsterisksC) else out) = out := by
    by_cases hnc : isNameColumn name = true
    · rw [map_omap_id (fun v hv s hs => cleanAst_id (h1 v hv s hs) (h5 hnc v hv s hs))]
      exact ite_self out
    · exact if_neg (fun hcon => hnc ((Bool.and_eq_true _ _).mp hcon).1)
  have h8e : (if isDecimalFormatColumn name = true
      then out.map (Option.map standardizeDecimalC) else out) = out := by
    by_cases hdc : isDecimalFormatColumn name = true
    · rw [map_omap_id (fun v hv s hs => h6 hdc v hv s hs)]
      exact ite_self out
    · exact if_neg hdc
  simp only [cleanColumnPre]
  rw [e3, ite_self, h4e, h5e, h6e, e7, h8e]

theorem map_id_of_forall {α : Type} {l : List α} {f : α → α}
    (h : ∀ x ∈ l, f x = x) : l.map f = l := by
  induction l with
  | nil => rfl
  | cons x xs ih =>
      simp only [List.map_cons]
      rw [h x (by simp), ih (fun y hy => h y (by simp [hy]))]

theorem toNumericCell_canon {v : CsvCell} {n : PyNum} (h : toNumericCell v = some n) :
    isCanon n = true := by
  unfold toNumericCell at h
  split at h
  · exact Option.noConfusion h
  · exact pyParseNum_canon h

theorem toNumericCell_printNum {fm : Bool} {n : PyNum} (hc : isCanon n = true)
    (hdd : pyStrip (printNum fm n) ≠ chars "--") :
    toNumericCell (some (printNum fm n)) =
      some (if n.isInt && !fm then n else ⟨false, n.mant, n.fexp⟩) := by
  have h1 : clean_placeholder_values (some (printNum fm n)) = some (printNum fm n) := by
    show (if (decide (pyStrip (printNum fm n) = chars "--") ||
        decide (pyStrip (printNum fm n) = [])) = true
        then none else some (printNum fm n)) = some (printNum fm n)
    rw [if_neg]
    intro hcon
    simp only [Bool.or_eq_true, decide_eq_true_eq] at hcon
    rcases hcon with hcon | hcon
    · exact hdd hcon
    · rw [printNum_strip] at hcon
      exact printNum_ne_nil fm n hcon
  unfold toNumericCell
  rw [h1]
  show pyParseNum (cleanSpecialChars (printNum fm n)) = _
  rw [cleanSpecial_id_of_no_half (printNum_no_half fm n)]
  exact pyParseNum_printNum fm hc

theorem printNum_true_float (n : PyNum) :
    printNum true (⟨false, n.mant, n.fexp⟩ : PyNum) = printNum true n := by
  simp [printNum]

theorem numericWriteCol_idem (u : List CsvCell)
    (hdd : ∀ v ∈ numericWriteCol u, ∀ s, v = some s → pyStrip s ≠ chars "--") :
    numericWriteCol (numericWriteCol u) = numericWriteCol u := by
  have hout : numericWriteCol u =
      (convert_to_numeric u).map
        (Option.map (printNum (colFloatMode (convert_to_numeric u)))) := rfl
  set ps := convert_to_numeric u with hps
  set fm := colFloatMode ps with hfm
  have hcanon : ∀ p ∈ ps, ∀ n, p = some n → isCanon n = true := by
    intro p hp n hn
    rw [hps] at hp
    unfold convert_to_numeric at hp
    rcases List.mem_map.mp hp with ⟨v, _, hveq⟩
    rw [hn] at hveq
    exact toNumericCell_canon hveq
  have hddn : ∀ p ∈ ps, ∀ n, p = some n → pyStrip (printNum fm n) ≠ chars "--" := by
    intro p hp n hn
    apply hdd (some (printNum fm n)) ?_ (printNum fm n) rfl
    rw [hout]
    have : some (printNum fm n) = Option.map (printNum fm) p := by rw [hn]; rfl
    rw [this]
    exact List.mem_map_of_mem _ hp
  have hps2 : convert_to_numeric (numericWriteCol u) =
      ps.map (fun p => p.map (fun n =>
        if n.isInt && !fm then n else ⟨false, n.mant, n.fexp⟩)) := by
    rw [hout]
    unfold convert_to_numeric
    rw [List.map_map]
    apply List.map_congr_left
    intro p hp
    cases p with
    | none => rfl
    | some n =>
        show toNumericCell (some (printNum fm n)) = _
        rw [toNumericCell_printNum (hcanon _ hp n rfl) (hddn _ hp n rfl)]
        rfl
  show ((convert_to_numeric (numericWriteCol u)).map
      (Option.map (printNum (colFloatMode (convert_to_numeric (numericWriteCol u)))))) =
      numericWriteCol u
  rw [hps2]
  cases hfmv : fm with
  | false =>
      have hnf : ps.any (fun p => match p with
          | some n => !n.isInt | none => false) = false := by
        have h0 := hfmv
        rw [hfm] at h0
        unfold colFloatMode at h0
        exact ((Bool.or_eq_false_iff).mp h0).2
      have hid : ps.map (fun p => p.map (fun n =>
          if n.isInt && !false then n else ⟨false, n.mant, n.fexp⟩)) = ps := by
        apply map_id_of_forall
        intro p hp
        cases p with
        | none => rfl
        | some n =>
            have hint : n.isInt = true := by
              by_contra hni
              have hany : ps.any (fun p => match p with
                  | some n => !n.isInt | none => false) = true := by
                apply List.any_eq_true.mpr
                exact ⟨some n, hp, by simp [Bool.eq_false_iff.mpr hni]⟩
              rw [hany] at hnf
              exact absurd hnf (by simp)
            simp [hint]
      rw [hid, hout, ← hfm, hfmv]
  | true =>
      have hfm2 : colFloatMode (ps.map (fun p => p.map (fun n =>
          if n.isInt && !true then n else ⟨false, n.mant, n.fexp⟩))) = true := by
        have h0 := hfmv
        rw [hfm] at h0
        unfold colFloatMode at h0
        rcases (Bool.or_eq_true _ _).mp h0 with hcase | hcase
        · rcases List.any_eq_true.mp hcase with ⟨p, hp, hpn⟩
          unfold colFloatMode
          apply (Bool.or_eq_true _ _).mpr
          left
          apply List.any_eq_true.mpr
          refine ⟨p.map (fun n => if n.isInt && !true then n else ⟨false, n.mant, n.fexp⟩),
            List.mem_map_of_mem _ hp, ?_⟩
          cases p with
          | none => simp
          | some n => simp at hpn
        · rcases List.any_eq_true.mp hcase with ⟨p, hp, hpn⟩
          unfold colFloatMode
          apply (Bool.or_eq_true _ _).mpr
          right
          apply List.any_eq_true.mpr
          refine ⟨p.map (fun n => if n.isInt && !true then n else ⟨false, n.mant, n.fexp⟩),
            List.mem_map_of_mem _ hp, ?_⟩
          cases p with
          | none => simp at hpn
          | some n => simp
      rw [hfm2]
      rw [hout, hfmv]
      rw [List.map_map]
      apply List.map_congr_left
      intro p hp
      cases p with
      | none => rfl
      | some n =>
          show some (printNum true (if (n.isInt && !true) = true then n
            else ⟨false, n.mant, n.fexp⟩)) = some (printNum true n)
          rw [show (n.isInt && !true) = false from by simp]
          simp only [Bool.false_eq_true, if_false]
          rw [printNum_true_float]

theorem mem_dropLast_sub {c : Char} {l : List Char} (h : c ∈ l.dropLast) : c ∈ l := by
  have hsub := List.dropLast_sublist l
  exact hsub.mem h

theorem mem_cleanQuestion {c : Char} {s : List Char} (h : c ∈ cleanQuestionC s) : c ∈ s := by
  simp only [cleanQuestionC] at h
  split at h
  · exact mem_pyStrip (mem_dropLast_sub (mem_pyStrip h))
  · exact mem_pyStrip h

theorem numericLike_subset :
    ∀ c ∈ numericLikeColumns, c ∈ numericColumns ∨ c ∈ decimalNumericColumns := by
  decide

theorem numericWriteCol_props (u : List CsvCell) :
    ∀ v ∈ numericWriteCol u, ∀ s, v = some s →
      pyStrip s = s ∧ '½' ∉ s ∧ s.getLast? ≠ some '?' ∧ '*' ∉ s ∧
      standardizeDecimalC s = s := by
  intro v hv s hs
  unfold numericWriteCol at hv
  rcases List.mem_map.mp hv with ⟨p, _, hpv⟩
  subst hs
  cases p with
  | none => exact Option.noConfusion hpv
  | some n =>
      have hsn : printNum (colFloatMode (convert_to_numeric u)) n = s := by
        simpa using hpv
      rw [← hsn]
      exact ⟨printNum_strip _ _, printNum_no_half _ _, printNum_last_ne_q _ _,
        printNum_no_star _ _, printNum_standardize _ _⟩

theorem cleanColumnPre_no_half (name : List Char) (cells : List CsvCell) :
    ∀ v ∈ cleanColumnPre name cells, ∀ s, v = some s → '½' ∉ s := by
  simp only [cleanColumnPre]
  -- step 8
  have step8 : ∀ (l : List CsvCell),
      (∀ w ∈ l, ∀ t, w = some t → '½' ∉ t) →
      ∀ w ∈ (if isDecimalFormatColumn name = true
        then l.map (Option.map standardizeDecimalC) else l), ∀ t, w = some t → '½' ∉ t := by
    intro l hl w hw t hwt hmem
    subst hwt
    split at hw
    · rcases List.mem_map.mp hw with ⟨w2, hw2, hww⟩
      cases w2 with
      | none => exact Option.noConfusion hww
      | some t2 =>
          have : standardizeDecimalC t2 = t := by simpa using hww
          rw [← this] at hmem
          rcases mem_standardize hmem with hc | hc | hc
          · exact hl (some t2) hw2 t2 rfl hc
          · exact absurd hc (by decide)
          · exact absurd hc (by decide)
    · exact hl (some t) hw t rfl hmem
  apply step8
  -- step 7
  intro w hw t hwt hmem
  subst hwt
  rcases List.mem_map.mp hw with ⟨w2, hw2, hww⟩
  cases w2 with
  | none => exact Option.noConfusion hww
  | some t2 =>
      have ht2 : pyStrip t2 = t := by simpa using hww
      rw [← ht2] at hmem
      have hmem2 : '½' ∈ t2 := mem_pyStrip hmem
      -- step 6
      revert hw2 hmem2
      have step6 : ∀ (l : List CsvCell),
          (∀ w ∈ l, ∀ t, w = some t → '½' ∉ t) →
          ∀ w2h : some t2 ∈ (if (isNameColumn name &&
              l.any fun v => (v.getD []).contains '*') = true
            then l.map (Option.map cleanAsterisksC) else l), '½' ∈ t2 → False := by
        intro l hl hw2 hmem2
        split at hw2
        · rcases List.mem_map.mp hw2 with ⟨w3, hw3, hww3⟩
          cases w3 with
          | none => exact Option.noConfusion hww3
          | some t3 =>
              have ht3 : cleanAsterisksC t3 = t2 := by simpa using hww3
              rw [← ht3] at hmem2
              exact hl (some t3) hw3 t3 rfl (mem_cleanAst hmem2)
        · exact hl (some t2) hw2 t2 rfl hmem2
      intro hw2 hmem2
      apply step6 _ ?_ hw2 hmem2
      -- step 5
      intro w hw t hwt hmem
      subst hwt
      have step5 : ∀ (l : List CsvCell),
          (∀ w ∈ l, ∀ t, w = some t → '½' ∉ t) →
          some t ∈ (if (l.any isDashCell) = true then l.map clean_placeholder_values else l) →
          False := by
        intro l hl hmm
        split at hmm
        · rcases List.mem_map.mp hmm with ⟨w3, hw3, hww3⟩
          cases w3 with
          | none => exact Option.noConfusion hww3
          | some t3 =>
              simp only [clean_placeholder_values] at hww3
              split at hww3
              · exact Option.noConfusion hww3
              · have : t3 = t := Option.some.inj hww3
                subst this
                exact hl (some t3) hw3 t3 rfl hmem
        · exact hl (some t) hmm t rfl hmem
      apply step5 _ ?_ hw
      -- step 4
      intro w hw4 t4 hwt hmem4
      subst hwt
      have step4 : ∀ (l : List CsvCell),
          (∀ w ∈ l, ∀ t, w = some t → '½' ∉ t) →
          some t4 ∈ (if (numericLikeColumns.contains name &&
            l.any fun v => (v.getD []).contains '?') = true
            then l.map (Option.map cleanQuestionC) else l) → False := by
        intro l hl hmm
        split at hmm
        · rcases List.mem_map.mp hmm with ⟨w3, hw3, hww3⟩
          cases w3 with
          | none => exact Option.noConfusion hww3
          | some t3 =>
              have ht3 : cleanQuestionC t3 = t4 := by simpa using hww3
              rw [← ht3] at hmem4
              exact hl (some t3) hw3 t3 rfl (mem_cleanQuestion hmem4)
        · exact hl (some t4) hmm t4 rfl hmem4
      apply step4 _ ?_ hw4
      -- step 3
      intro w hw3 t3 hwt hmem3
      subst hwt
      revert hw3
      split
      · intro hw3
        rcases List.mem_map.mp hw3 with ⟨w4, _, hww4⟩
        cases w4 with
        | none => exact Option.noConfusion hww4
        | some t5 =>
            have ht5 : cleanSpecialChars t5 = t3 := by simpa using hww4
            rw [← ht5] at hmem3
            exact cleanSpecial_no_half t5 hmem3
      · intro hw3
        rename_i hcond
        apply hcond
        apply List.any_eq_true.mpr
        exact ⟨some t3, hw3, by
          simp only [Option.getD_some]
          apply List.any_eq_true.mpr
          exact ⟨'½', hmem3, by decide⟩⟩

theorem cleanColumnPre_strip (name : List Char) (cells : List CsvCell) :
    ∀ v ∈ cleanColumnPre name cells, ∀ s, v = some s → pyStrip s = s := by
  simp only [cleanColumnPre]
  intro v hv s hs
  subst hs
  split at hv
  · rcases List.mem_map.mp hv with ⟨w, _, hww⟩
    cases w with
    | none => exact Option.noConfusion hww
    | some t =>
        have : standardizeDecimalC t = s := by simpa using hww
        rw [← this]
        exact standardize_stripped t
  · rcases List.mem_map.mp hv with ⟨w, _, hww⟩
    cases w with
    | none => exact Option.noConfusion hww
    | some t =>
        have : pyStrip t = s := by simpa using hww
        rw [← this]
        exact pyStrip_idem t

theorem cleanColumnPre_no_star (name : List Char) (cells : List CsvCell)
    (hname : isNameColumn name = true) :
    ∀ v ∈ cleanColumnPre name cells, ∀ s, v = some s → '*' ∉ s := by
  simp only [cleanColumnPre]
  have step8 : ∀ (l : List CsvCell),
      (∀ w ∈ l, ∀ t, w = some t → '*' ∉ t) →
      ∀ w ∈ (if isDecimalFormatColumn name = true
        then l.map (Option.map standardizeDecimalC) else l), ∀ t, w = some t → '*' ∉ t := by
    intro l hl w hw t hwt hmem
    subst hwt
    split at hw
    · rcases List.mem_map.mp hw with ⟨w2, hw2, hww⟩
      cases w2 with
      | none => exact Option.noConfusion hww
      | some t2 =>
          have : standardizeDecimalC t2 = t := by simpa using hww
          rw [← this] at hmem
          rcases mem_standardize hmem with hc | hc | hc
          · exact hl (some t2) hw2 t2 rfl hc
          · exact absurd hc (by decide)
          · exact absurd hc (by decide)
    · exact hl (some t) hw t rfl hmem
  apply step8
  -- step 7
  intro w hw t hwt hmem
  subst hwt
  rcases List.mem_map.mp hw with ⟨w2, hw2, hww⟩
  cases w2 with
  | none => exact Option.noConfusion hww
  | some t2 =>
      have ht2 : pyStrip t2 = t := by simpa using hww
      rw [← ht2] at hmem
      have hmem2 : '*' ∈ t2 := mem_pyStrip hmem
      -- step 6
      have step6 : ∀ (l : List CsvCell),
          some t2 ∈ (if (isNameColumn name &&
              l.any fun v => (v.getD []).contains '*') = true
            then l.map (Option.map cleanAsterisksC) else l) → '*' ∈ t2 → False := by
        intro l hw3 hmem3
        split at hw3
        · rcases List.mem_map.mp hw3 with ⟨w3, _, hww3⟩
          cases w3 with
          | none => exact Option.noConfusion hww3
          | some t3 =>
              have ht3 : cleanAsterisksC t3 = t2 := by simpa using hww3
              rw [← ht3] at hmem3
              exact cleanAst_no_star t3 hmem3
        · rename_i hcond
          apply hcond
          rw [hname, Bool.true_and]
          apply List.any_eq_true.mpr
          exact ⟨some t2, hw3, by
            simp only [Option.getD_some]
            exact (contains_iff _ _).mpr hmem3⟩
      exact step6 _ hw2 hmem2

theorem cleanColumnPre_std_fix (name : List Char) (cells : List CsvCell)
    (hdec : isDecimalFormatColumn name = true) :
    ∀ v ∈ cleanColumnPre name cells, ∀ s, v = some s → standardizeDecimalC s = s := by
  simp only [cleanColumnPre]
  rw [if_pos hdec]
  intro v hv s hs
  subst hs
  rcases List.mem_map.mp hv with ⟨w, _, hww⟩
  cases w with
  | none => exact Option.noConfusion hww
  | some t =>
      have : standardizeDecimalC t = s := by simpa using hww
      rw [← this]
      exact standardize_idem t

theorem writeTextCell_some {w : CsvCell} {s : List Char} (h : writeTextCell w = some s) :
    w = some s ∧ s ≠ [] := by
  cases w with
  | none => exact Option.noConfusion h
  | some t =>
      simp only [writeTextCell] at h
      split at h
      · exact Option.noConfusion h
      · rename_i hne
        have := Option.some.inj h
        subst this
        exact ⟨rfl, hne⟩

theorem cleanColumnCells_idem (name : List Char) (cells : List CsvCell)
    (hdd : ∀ v ∈ cleanColumnCells name cells, ∀ s, v = some s →
      pyStrip s ≠ chars "--") :
    cleanColumnCells name (cleanColumnCells name cells) = cleanColumnCells name cells := by
  by_cases hnum : (numericColumns.contains name || decimalNumericColumns.contains name) = true
  · have hout : cleanColumnCells name cells = numericWriteCol (cleanColumnPre name cells) := by
      unfold cleanColumnCells
      rw [if_pos hnum]
    set out := cleanColumnCells name cells with ho
    have hpr : ∀ v ∈ out, ∀ s, v = some s →
        pyStrip s = s ∧ '½' ∉ s ∧ s.getLast? ≠ some '?' ∧ '*' ∉ s ∧
        standardizeDecimalC s = s := by
      rw [hout]
      exact numericWriteCol_props (cleanColumnPre name cells)
    have hpre : cleanColumnPre name out = out :=
      cleanColumnPre_id name out
        (fun v hv s hs => (hpr v hv s hs).1)
        (fun v hv s hs => hdd v hv s hs)
        (fun v hv s hs => (hpr v hv s hs).2.1)
        (fun _ v hv s hs => (hpr v hv s hs).2.2.1)
        (fun _ v hv s hs => (hpr v hv s hs).2.2.2.1)
        (fun _ v hv s hs => (hpr v hv s hs).2.2.2.2)
    unfold cleanColumnCells
    rw [if_pos hnum, hpre, hout]
    apply numericWriteCol_idem
    intro v hv s hs
    apply hdd v ?_ s hs
    rw [hout]
    exact hv
  · have hout : cleanColumnCells name cells = (cleanColumnPre name cells).map writeTextCell := by
      unfold cleanColumnCells
      rw [if_neg hnum]
    set out := cleanColumnCells name cells with ho
    have hpr : ∀ v ∈ out, ∀ s, v = some s →
        pyStrip s = s ∧ '½' ∉ s ∧ s ≠ [] ∧
        (isNameColumn name = true → '*' ∉ s) ∧
        (isDecimalFormatColumn name = true → standardizeDecimalC s = s) := by
      rw [hout]
      intro v hv s hs
      subst hs
      rcases List.mem_map.mp hv with ⟨w, hw, hww⟩
      obtain ⟨hws, hsne⟩ := writeTextCell_some hww
      subst hws
      exact ⟨cleanColumnPre_strip name cells _ hw s rfl,
        cleanColumnPre_no_half name cells _ hw s rfl, hsne,
        fun hn => cleanColumnPre_no_star name cells hn _ hw s rfl,
        fun hd => cleanColumnPre_std_fix name cells hd _ hw s rfl⟩
    have hnl : numericLikeColumns.contains name = false := by
      cases hx : numericLikeColumns.contains name with
      | false => rfl
      | true =>
          exfalso
          apply hnum
          rcases numericLike_subset name (List.elem_iff.mp hx) with h | h
          · exact (Bool.or_eq_true _ _).mpr (Or.inl (List.elem_iff.mpr h))
          · exact (Bool.or_eq_true _ _).mpr (Or.inr (List.elem_iff.mpr h))
    have hpre : cleanColumnPre name out = out :=
      cleanColumnPre_id name out
        (fun v hv s hs => (hpr v hv s hs).1)
        (fun v hv s hs => hdd v hv s hs)
        (fun v hv s hs => (hpr v hv s hs).2.1)
        (fun hq => absurd (hnl ▸ hq) Bool.false_ne_true)
        (fun hn v hv s hs => (hpr v hv s hs).2.2.2.1 hn)
        (fun hd v hv s hs => (hpr v hv s hs).2.2.2.2 hd)
    unfold cleanColumnCells
    rw [if_neg hnum, hpre]
    apply map_id_of_forall
    intro v hv
    cases v with
    | none => rfl
    | some s =>
        have hsne := (hpr (some s) hv s rfl).2.2.1
        simp only [writeTextCell]
        rw [if_neg hsne]

theorem cleanColumnPre_length (name : List Char) (cells : List CsvCell) :
    (cleanColumnPre name cells).length = cells.length := by
  simp only [cleanColumnPre]
  repeat' split
  all_goals simp

theorem cleanColumnCells_length (name : List Char) (cells : List CsvCell) :
    (cleanColumnCells name cells).length = cells.length := by
  unfold cleanColumnCells
  split
  · show (numericWriteCol (cleanColumnPre name cells)).length = _
    unfold numericWriteCol convert_to_numeric
    simp [cleanColumnPre_length]
  · simp [cleanColumnPre_length]

theorem toColumns_length (n : Nat) (rows : List (List CsvCell)) :
    (toColumns n rows).length = n := by
  simp [toColumns]

theorem toColumns_col_length (n : Nat) (rows : List (List CsvCell)) :
    ∀ c ∈ toColumns n rows, c.length = rows.length := by
  intro c hc
  simp only [toColumns] at hc
  rcases List.mem_map.mp hc with ⟨i, _, h⟩
  rw [← h]
  simp

theorem cleanedColumns_length (t : CsvTable) :
    (cleanedColumns t).length = t.cols.length := by
  simp [cleanedColumns, toColumns_length]

theorem cleanedColumns_col_length (t : CsvTable) :
    ∀ c ∈ cleanedColumns t, c.length = (survivingRows t).length := by
  intro c hc
  simp only [cleanedColumns] at hc
  rcases List.mem_map.mp hc with ⟨p, hp, hpc⟩
  obtain ⟨a, b⟩ := p
  rcases List.mem_zip hp with ⟨_, h2⟩
  rw [← hpc, cleanColumnCells_length]
  exact toColumns_col_length _ _ _ h2

theorem mem_toRows {colsData : List (List CsvCell)} (m : Nat)
    (hall : ∀ c ∈ colsData, c.length = m) {c : List CsvCell} (hc : c ∈ colsData)
    {v : CsvCell} (hv : v ∈ c) :
    ∃ r ∈ toRows colsData, v ∈ r := by
  rcases List.mem_iff_get.mp hv with ⟨⟨j, hj⟩, hget⟩
  have hmax : (colsData.map List.length).foldr max 0 = m := by
    apply foldr_max_const
    · intro hcon
      rw [List.map_eq_nil_iff] at hcon
      subst hcon
      exact absurd hc (List.not_mem_nil c)
    · intro x hx
      rcases List.mem_map.mp hx with ⟨d, hd, hlen⟩
      rw [← hlen]
      exact hall d hd
  refine ⟨colsData.map (fun d => d.getD j none), ?_, ?_⟩
  · simp only [toRows]
    rw [hmax]
    apply List.mem_map_of_mem
    apply List.mem_range.mpr
    rw [← hall c hc]
    exact hj
  · have hcv : c.getD j none = v := by
      show (c.get? j).getD none = v
      rw [List.get?_eq_get hj]
      simpa using hget
    rw [← hcv]
    exact List.mem_map_of_mem _ hc

theorem zip_map_pair_idem {α β : Type} (f : α → β → β) :
    ∀ (names : List α) (cols : List β),
      (∀ p ∈ names.zip cols, f p.1 (f p.1 p.2) = f p.1 p.2) →
      (names.zip ((names.zip cols).map (fun p => f p.1 p.2))).map (fun p => f p.1 p.2) =
        (names.zip cols).map (fun p => f p.1 p.2)
  | [], _, _ => rfl
  | _ :: _, [], _ => rfl
  | n :: ns, c :: cs, h => by
      simp only [List.zip_cons_cons, List.map_cons]
      rw [show f n (f n c) = f n c from h (n, c) (by simp)]
      rw [zip_map_pair_idem f ns cs (fun p hp => h p (by simp [hp]))]

theorem clean_csv_idem (t : CsvTable)
    (h1 : ∀ r ∈ (clean_csv t).rows, r.any (fun v => v.isSome) = true)
    (h2 : keyColumns (clean_csv t).cols ≠ [] →
      ((clean_csv t).rows.map (keyTuple (clean_csv t).cols)).Nodup)
    (h3 : ∀ r ∈ (clean_csv t).rows, ∀ v ∈ r, ∀ s, v = some s →
      pyStrip s ≠ chars "--") :
    clean_csv (clean_csv t) = clean_csv t := by
  have hsurv : survivingRows (clean_csv t) = (clean_csv t).rows := by
    simp only [survivingRows]
    have hfil : (clean_csv t).rows.filter (fun r => r.any (fun v => v.isSome)) =
        (clean_csv t).rows := List.filter_eq_self.mpr h1
    rw [hfil]
    split
    · rename_i hkc
      exact dedupByKey_nodup_id _ _ (h2 hkc)
    · rfl
  have hcols2 : toColumns t.cols.length (survivingRows (clean_csv t)) =
      cleanedColumns t := by
    rw [hsurv]
    show toColumns t.cols.length (toRows (cleanedColumns t)) = cleanedColumns t
    by_cases hc : t.cols = []
    · have hnil : cleanedColumns t = [] := by
        simp [cleanedColumns, hc]
      rw [hnil, hc]
      simp [toColumns, toRows]
    · have hlen : (cleanedColumns t).length = t.cols.length := cleanedColumns_length t
      rw [← hlen]
      apply toColumns_toRows (cleanedColumns t) (survivingRows t).length
      · intro hcon
        apply hc
        have hl := cleanedColumns_length t
        rw [hcon] at hl
        exact List.length_eq_zero.mp hl.symm
      · exact cleanedColumns_col_length t
  have hidem : ∀ p ∈ t.cols.zip (toColumns t.cols.length (survivingRows t)),
      cleanColumnCells p.1 (cleanColumnCells p.1 p.2) = cleanColumnCells p.1 p.2 := by
    intro p hp
    apply cleanColumnCells_idem
    intro v hv s hs
    have hcol : cleanColumnCells p.1 p.2 ∈ cleanedColumns t := by
      show _ ∈ (t.cols.zip (toColumns t.cols.length (survivingRows t))).map
        (fun p => cleanColumnCells p.1 p.2)
      exact List.mem_map_of_mem _ hp
    obtain ⟨r, hr, hvr⟩ := mem_toRows (survivingRows t).length
      (cleanedColumns_col_length t) hcol hv
    exact h3 r hr v hvr s hs
  have hzm := zip_map_pair_idem cleanColumnCells t.cols
    (toColumns t.cols.length (survivingRows t)) hidem
  have hcc : cleanedColumns (clean_csv t) = cleanedColumns t := by
    show (t.cols.zip (toColumns t.cols.length (survivingRows (clean_csv t)))).map
      (fun p => cleanColumnCells p.1 p.2) = cleanedColumns t
    rw [hcols2]
    exact hzm
  show (⟨(clean_csv t).cols, toRows (cleanedColumns (clean_csv t))⟩ : CsvTable) =
    clean_csv t
  rw [hcc]
  rfl

/-! ## Claim C1 — merge dedup in `save_to_csv` -/

/-- C1 (counterexample): the claimed equality of row counts fails when the
existing file itself holds two records with the same key tuple — merging such
a dataset with itself collapses the duplicates, yielding fewer rows than the
original, not an equal count. -/
theorem claim_C1_counterexample :
    (save_to_csv_merge [chars "Year"]
      [[some (chars "1901")], [some (chars "1901")]]
      [[some (chars "1901")], [some (chars "1901")]]).length = 1 ∧
    ([[some (chars "1901")], [some (chars "1901")]] :
      List (List CsvCell)).length = 2 := by
  decide

/-- C1 (amended): for a dataset with at least one conventional key column,
merging the file with itself concatenates and dedups on the key tuple keeping
the first occurrence, so the result is the dedup of the original; the row
count equals the original exactly when the original's key tuples are already
distinct. -/
theorem claim_C1_merge_self (cols : List (List Char)) (rows : List (List CsvCell))
    (hkey : keyColumns cols ≠ []) :
    save_to_csv_merge cols rows rows = dedupByKey (keyTuple cols) rows ∧
    ((rows.map (keyTuple cols)).Nodup → save_to_csv_merge cols rows rows = rows) := by
  constructor
  · unfold save_to_csv_merge
    rw [if_pos hkey]
    exact dedupByKey_append_dups _ _
  · intro hnd
    unfold save_to_csv_merge
    rw [if_pos hkey]
    exact dedupByKey_self_append _ _ hnd

theorem claim_C1_witness :
    keyColumns [chars "Year"] ≠ [] ∧
    (save_to_csv_merge [chars "Year"] [[some (chars "1901")]] [[some (chars "1901")]] =
      dedupByKey (keyTuple [chars "Year"]) [[some (chars "1901")]] ∧
    (([[some (chars "1901")]].map (keyTuple [chars "Year"])).Nodup →
      save_to_csv_merge [chars "Year"] [[some (chars "1901")]] [[some (chars "1901")]] =
        [[some (chars "1901")]])) :=
  ⟨by decide, claim_C1_merge_self [chars "Year"] [[some (chars "1901")]] (by decide)⟩

/-! ## Claim C2 — Normalizer idempotence -/

/-- C2 (counterexample): `clean_csv` is not idempotent.  In a `Team` column
the cell `*--*` passes the placeholder step unscathed (it does not trim to
`--` yet), then the asterisk step reduces it to `--`; a second run now
triggers the placeholder step and nulls the cell, so the second output file
differs from the first. -/
theorem claim_C2_counterexample :
    clean_csv (clean_csv ⟨[chars "Team"], [[some (chars "*--*")]]⟩) ≠
      clean_csv ⟨[chars "Team"], [[some (chars "*--*")]]⟩ := by
  decide

/-- C2 (amended): `clean_csv` is idempotent on every dataset whose first
output has no all-empty row, no duplicated key tuple, and no cell that trims
to the placeholder `--`; under those conditions the second run reproduces the
first run's output exactly. -/
theorem claim_C2_idem_amended (t : CsvTable)
    (h1 : ∀ r ∈ (clean_csv t).rows, r.any (fun v => v.isSome) = true)
    (h2 : keyColumns (clean_csv t).cols ≠ [] →
      ((clean_csv t).rows.map (keyTuple (clean_csv t).cols)).Nodup)
    (h3 : ∀ r ∈ (clean_csv t).rows, ∀ v ∈ r, isDashCell v = false) :
    clean_csv (clean_csv t) = clean_csv t := by
  apply clean_csv_idem t h1 h2
  intro r hr v hv s hs hcon
  have h := h3 r hr v hv
  rw [hs] at h
  simp only [isDashCell, decide_eq_false_iff_not] at h
  exact h hcon

theorem claim_C2_witness :
    (∀ r ∈ (clean_csv ⟨[chars "Notes"], [[some (chars "ok")]]⟩).rows,
      r.any (fun v => v.isSome) = true) ∧
    (keyColumns (clean_csv ⟨[chars "Notes"], [[some (chars "ok")]]⟩).cols ≠ [] →
      ((clean_csv ⟨[chars "Notes"], [[some (chars "ok")]]⟩).rows.map
        (keyTuple (clean_csv ⟨[chars "Notes"], [[some (chars "ok")]]⟩).cols)).Nodup) ∧
    (∀ r ∈ (clean_csv ⟨[chars "Notes"], [[some (chars "ok")]]⟩).rows,
      ∀ v ∈ r, isDashCell v = false) ∧
    clean_csv (clean_csv ⟨[chars "Notes"], [[some (chars "ok")]]⟩) =
      clean_csv ⟨[chars "Notes"], [[some (chars "ok")]]⟩ :=
  ⟨by decide, by decide, by decide,
    claim_C2_idem_amended ⟨[chars "Notes"], [[some (chars "ok")]]⟩
      (by decide) (by decide) (by decide)⟩

/-! ## Claim C3 — checkpoint resume in `scraper_al.py` -/

/-- C3 (code bug): the checkpoint-resume mechanism of `scraper_al.main` is
dead code.  Lines 140-142 unconditionally delete the checkpoint file before
`load_checkpoint` runs at line 158, so the loaded processed-year set is
always empty and a restarted run re-processes every year — no unit is ever
skipped, contrary to the claimed resume behaviour.  `load_checkpoint` itself
would honour a surviving file, as the second conjunct shows; the deletion at
startup is what kills the feature. -/
theorem claim_C3_resume_dead :
    (∀ (cp : Option Checkpoint) (years : List (List Char)),
      scraper_al_run_processed cp years = years) ∧
    load_checkpoint (some ⟨chars "AL", [chars "1901"]⟩) = [chars "1901"] := by
  constructor
  · intro cp years
    simp [scraper_al_run_processed, load_checkpoint]
  · decide

/-! ## Claim C9 — Normalizer numeric coercion failure -/

/-- C9 (counterexample): a value that fails numeric conversion in a
type-table column is not left in place as text — `pd.to_numeric(errors=
"coerce")` replaces it with NaN, which is written back as an empty cell.  In
the integer column `Wins` the unparseable cell `abc` comes out as NaN, not as
the original text. -/
theorem claim_C9_counterexample :
    cleanColumnCells (chars "Wins") [some (chars "abc")] ≠ [some (chars "abc")] ∧
    cleanColumnCells (chars "Wins") [some (chars "abc")] = [none] := by
  decide

/-- C9 (amended): when numeric conversion of a cell fails, the cell becomes
NaN (null) — it is never replaced by `0` or any other guessed numeric
default (`none` is in particular distinct from every `some` number). -/
theorem claim_C9_failure_is_nan (s : List Char)
    (hfail : pyParseNum (cleanSpecialChars s) = none) :
    toNumericCell (some s) = none := by
  unfold toNumericCell
  split
  · rfl
  · rename_i t ht
    have hts : t = s := by
      simp only [clean_placeholder_values] at ht
      split at ht
      · exact Option.noConfusion ht
      · exact (Option.some.inj ht).symm
    rw [hts]
    exact hfail

theorem claim_C9_witness :
    pyParseNum (cleanSpecialChars (chars "abc")) = none ∧
    toNumericCell (some (chars "abc")) = none :=
  ⟨by decide, claim_C9_failure_is_nan (chars "abc") (by decide)⟩

/-! ## Helper lemmas: substring search and replacement -/

theorem isPre_self : ∀ (l : List Char), isPre l l = true := by
  intro l
  induction l with
  | nil => rfl
  | cons c t ih => simp [isPre, ih]

theorem hasSub_append_self (p : List Char) (hp : p ≠ []) :
    ∀ (ds : List Char), hasSub p (ds ++ p) = true := by
  intro ds
  induction ds with
  | nil =>
      rw [List.nil_append]
      cases p with
      | nil => exact absurd rfl hp
      | cons x xs =>
          show (isPre (x :: xs) (x :: xs) || hasSub (x :: xs) xs) = true
          rw [isPre_self]
          rfl
  | cons d t ih =>
      rw [List.cons_append]
      show (isPre p (d :: (t ++ p)) || hasSub p (t ++ p)) = true
      rw [ih, Bool.or_true]

theorem hasSub_head_notin (x : Char) (p' : List Char) :
    ∀ (l : List Char), (∀ c ∈ l, c ≠ x) → hasSub (x :: p') l = false := by
  intro l
  induction l with
  | nil => intro _; rfl
  | cons c t ih =>
      intro h
      have hstep : hasSub (x :: p') (c :: t) =
          (isPre (x :: p') (c :: t) || hasSub (x :: p') t) := rfl
      rw [hstep, ih (fun c hc2 => h c (by simp [hc2])), Bool.or_false]
      show (decide (x = c) && isPre p' t) = false
      rw [decide_eq_false (fun he => (h c (by simp)) he.symm), Bool.false_and]

theorem replaceAll_cons_no_match (x : Char) (p' r : List Char) {c : Char}
    (t : List Char) (hc : c ≠ x) :
    replaceAll (x :: p') r (c :: t) = c :: replaceAll (x :: p') r t := by
  have hne : isPre (x :: p') (c :: t) = false := by
    show (decide (x = c) && isPre p' t) = false
    rw [decide_eq_false (fun he => hc he.symm), Bool.false_and]
  simp only [replaceAll]
  rw [hne]
  simp only [Bool.false_eq_true, if_false]

theorem replaceAll_digits_before (x : Char) (p' r : List Char)
    (hx : isDigitC x = false) :
    ∀ (ds t : List Char), (∀ c ∈ ds, isDigitC c = true) →
      replaceAll (x :: p') r (ds ++ t) = ds ++ replaceAll (x :: p') r t := by
  intro ds
  induction ds with
  | nil => intro t _; rfl
  | cons d u ih =>
      intro t h
      rw [List.cons_append]
      rw [replaceAll_cons_no_match x p' r (u ++ t)
        (digit_ne (h d (by simp)) hx)]
      rw [ih t (fun c hc => h c (by simp [hc]))]
      rfl

theorem isPre_append (p : List Char) : ∀ (t : List Char), isPre p (p ++ t) = true := by
  intro t
  induction p with
  | nil => rfl
  | cons c u ih => simp [isPre, ih]

theorem replaceAll_boundary (x : Char) (p' r t : List Char) :
    replaceAll (x :: p') r ((x :: p') ++ t) = r ++ replaceAll (x :: p') r t := by
  rw [List.cons_append]
  simp only [replaceAll]
  rw [show isPre (x :: p') (x :: (p' ++ t)) = true from by
    show (decide (x = x) && isPre p' (p' ++ t)) = true
    rw [isPre_append]
    simp]
  rw [if_pos rfl]
  rw [show (p' ++ t).drop p'.length = t from List.drop_left p' t]

theorem replaceAll_no_occ (x : Char) (p' r : List Char) :
    ∀ (l : List Char), (∀ c ∈ l, c ≠ x) → replaceAll (x :: p') r l = l := by
  intro l
  induction l with
  | nil => intro _; simp only [replaceAll]
  | cons c t ih =>
      intro h
      rw [replaceAll_cons_no_match x p' r t (h c (by simp))]
      rw [ih (fun c hc => h c (by simp [hc]))]

theorem replaceAll_exact (x : Char) (p' r : List Char) :
    replaceAll (x :: p') r (x :: p') = r := by
  simp only [replaceAll]
  rw [show isPre (x :: p') (x :: p') = true from isPre_self _]
  rw [if_pos rfl]
  rw [List.drop_length]
  simp only [replaceAll]
  exact List.append_nil r

theorem hasSub_append_mid (p : List Char) (hp : p ≠ []) (t : List Char) :
    ∀ (ds : List Char), hasSub p (ds ++ (p ++ t)) = true := by
  intro ds
  induction ds with
  | nil =>
      rw [List.nil_append]
      cases p with
      | nil => exact absurd rfl hp
      | cons x xs =>
          rw [List.cons_append]
          show (isPre (x :: xs) (x :: (xs ++ t)) || _) = true
      
          rw [show isPre (x :: xs) (x :: (xs ++ t)) = true from by
            rw [← List.cons_append]
            exact isPre_append (x :: xs) t]
          rfl
  | cons d u ih =>
      rw [List.cons_append]
      show (isPre p (d :: (u ++ (p ++ t))) || hasSub p (u ++ (p ++ t))) = true
      rw [ih, Bool.or_true]

/-! ## Claim C5 — games-behind repair -/

/-- C5: games-behind repair.  The literal `--` is normalised to `0`; a cell of
digits followed by a recognised mangled half-game artifact (either the long or
the short mojibake encoding of `½`) becomes the digits with `.5` appended; a
comma used as decimal separator between digit groups becomes a period; and an
empty cell remains empty through the repair and is stored as null, never
zero. -/
theorem claim_C5_gb_repair (ds ds2 : List Char)
    (hds : ∀ c ∈ ds, isDigitC c = true) (hds2 : ∀ c ∈ ds2, isDigitC c = true) :
    cleanGBOpt (some (chars "--")) = some (chars "0") ∧
    cleanGBOpt (some (ds ++ chars "Ãƒâ€šÃ‚Â½")) = some (ds ++ chars ".5") ∧
    cleanGBOpt (some (ds ++ chars "Â½")) = some (ds ++ chars ".5") ∧
    cleanGBOpt (some (ds ++ ',' :: ds2)) = some (ds ++ '.' :: ds2) ∧
    noneIfEmpty (cleanGBOpt (some [])) = none := by
  refine ⟨by decide, ?_, ?_, ?_, by decide⟩
  · -- long artifact
    have hne2 : ds ++ chars "Ãƒâ€šÃ‚Â½" ≠ chars "--" := by
      intro he
      have hm : 'Ã' ∈ ds ++ chars "Ãƒâ€šÃ‚Â½" :=
        List.mem_append.mpr (Or.inr (by decide))
      rw [he] at hm
      exact absurd hm (by decide)
    have hnn : ds ++ chars "Ãƒâ€šÃ‚Â½" ≠ [] := by
      intro he
      exact absurd (List.append_eq_nil.mp he).2 (by decide)
    simp only [cleanGBOpt]
    rw [if_neg hne2]
    rw [decide_eq_true hnn]
    rw [show chars "Ãƒâ€šÃ‚Â½" = 'Ã' :: chars "ƒâ€šÃ‚Â½" from rfl]
    rw [hasSub_append_self ('Ã' :: chars "ƒâ€šÃ‚Â½") (by decide) ds]
    rw [Bool.true_and, if_pos rfl]
    rw [replaceAll_digits_before 'Ã' (chars "ƒâ€šÃ‚Â½") (chars ".5") (by decide) ds _ hds]
    rw [replaceAll_exact]
  · -- short artifact
    have hne2 : ds ++ chars "Â½" ≠ chars "--" := by
      intro he
      have hm : 'Â' ∈ ds ++ chars "Â½" :=
        List.mem_append.mpr (Or.inr (by decide))
      rw [he] at hm
      exact absurd hm (by decide)
    have hnn : ds ++ chars "Â½" ≠ [] := by
      intro he
      exact absurd (List.append_eq_nil.mp he).2 (by decide)
    have hnotin : ∀ c ∈ ds ++ chars "Â½", c ≠ 'Ã' := by
      intro c hc
      rcases List.mem_append.mp hc with h | h
      · exact digit_ne (hds c h) (by decide)
      · rw [show chars "Â½" = ['Â', '½'] from rfl] at h
        rcases h with _ | ⟨_, h2⟩
        · decide
        · rcases h2 with _ | ⟨_, h3⟩
          · decide
          · exact absurd h3 (List.not_mem_nil c)
    simp only [cleanGBOpt]
    rw [if_neg hne2]
    rw [decide_eq_true hnn]
    rw [show chars "Ãƒâ€šÃ‚Â½" = 'Ã' :: chars "ƒâ€šÃ‚Â½" from rfl]
    rw [hasSub_head_notin 'Ã' (chars "ƒâ€šÃ‚Â½") _ hnotin]
    rw [Bool.and_false]
    rw [if_neg Bool.false_ne_true]
    rw [show chars "Â½" = 'Â' :: chars "½" from rfl]
    rw [hasSub_append_self ('Â' :: chars "½") (by decide) ds]
    rw [Bool.true_and, if_pos rfl]
    rw [replaceAll_digits_before 'Â' (chars "½") (chars ".5") (by decide) ds _ hds]
    rw [replaceAll_exact]
  · -- comma as decimal separator
    have hall : ∀ c ∈ ds ++ ',' :: ds2, isDigitC c = true ∨ c = ',' := by
      intro c hc
      rcases List.mem_append.mp hc with h | h
      · exact Or.inl (hds c h)
      · rcases h with _ | ⟨_, h2⟩
        · exact Or.inr rfl
        · exact Or.inl (hds2 c h2)
    have hne2 : ds ++ ',' :: ds2 ≠ chars "--" := by
      intro he
      have hm : ',' ∈ ds ++ ',' :: ds2 := List.mem_append.mpr (Or.inr (by simp))
      rw [he] at hm
      exact absurd hm (by decide)
    have hnn : ds ++ ',' :: ds2 ≠ [] := by
      intro he
      exact absurd (List.append_eq_nil.mp he).2 (by simp)
    have hnotinA : ∀ c ∈ ds ++ ',' :: ds2, c ≠ 'Ã' := by
      intro c hc
      rcases hall c hc with h | h
      · exact digit_ne h (by decide)
      · rw [h]; decide
    have hnotinB : ∀ c ∈ ds ++ ',' :: ds2, c ≠ 'Â' := by
      intro c hc
      rcases hall c hc with h | h
      · exact digit_ne h (by decide)
      · rw [h]; decide
    simp only [cleanGBOpt]
    rw [if_neg hne2]
    rw [decide_eq_true hnn]
    rw [show chars "Ãƒâ€šÃ‚Â½" = 'Ã' :: chars "ƒâ€šÃ‚Â½" from rfl]
    rw [hasSub_head_notin 'Ã' (chars "ƒâ€šÃ‚Â½") _ hnotinA]
    rw [Bool.and_false, if_neg Bool.false_ne_true]
    rw [show chars "Â½" = 'Â' :: chars "½" from rfl]
    rw [hasSub_head_notin 'Â' (chars "½") _ hnotinB]
    rw [Bool.and_false, if_neg Bool.false_ne_true]
    rw [show chars "," = [','] from rfl]
    rw [show (',' :: ds2 : List Char) = [','] ++ ds2 from rfl]
    rw [hasSub_append_mid [','] (by decide) ds2 ds]
    rw [Bool.true_and, if_pos rfl]
    rw [show ([','] : List Char) = ',' :: ([] : List Char) from rfl]
    rw [replaceAll_digits_before ',' [] (chars ".") (by decide) ds _ hds]
    rw [show (',' :: ([] : List Char)) ++ ds2 = (',' :: ([] : List Char)) ++ ds2 from rfl]
    rw [replaceAll_boundary ',' [] (chars ".") ds2]
    rw [replaceAll_no_occ ',' [] (chars ".") ds2
      (fun c hc => digit_ne (hds2 c hc) (by decide))]
    rfl

theorem claim_C5_witness :
    (∀ c ∈ chars "2", isDigitC c = true) ∧ (∀ c ∈ chars "5", isDigitC c = true) ∧
    (cleanGBOpt (some (chars "--")) = some (chars "0") ∧
     cleanGBOpt (some (chars "2" ++ chars "Ãƒâ€šÃ‚Â½")) = some (chars "2" ++ chars ".5") ∧
     cleanGBOpt (some (chars "2" ++ chars "Â½")) = some (chars "2" ++ chars ".5") ∧
     cleanGBOpt (some (chars "2" ++ ',' :: chars "5")) = some (chars "2" ++ '.' :: chars "5") ∧
     noneIfEmpty (cleanGBOpt (some [])) = none) :=
  ⟨by decide, by decide, claim_C5_gb_repair (chars "2") (chars "5") (by decide) (by decide)⟩

/-! ## Claim C4 — split-season marker handling -/

/-- C4: when the second cell of a standings data row carries one of the fixed
split-season markers, the row is dropped (no record emitted) unless the marker
is exactly `Final`; for a `Final` row every subsequent column read is shifted
by one, so the extracted fields coincide with those of the same row with the
split column removed (provided the reduced row does not itself start with a
marker). -/
theorem claim_C4_split_marker (year league division team : List Char)
    (c0 c1 : SCell) (rest : List SCell)
    (hmk : splitIndicators.contains (pyStrip c1.text) = true) :
    (pyStrip c1.text ≠ chars "Final" →
      extractStandingsFields year league division team (c0 :: c1 :: rest) = none) ∧
    (pyStrip c1.text = chars "Final" →
      splitIndicators.contains (pyStrip ((rest.getD 0 dummySCell).text)) = false →
      extractStandingsFields year league division team (c0 :: c1 :: rest) =
        extractStandingsFields year league division team (c0 :: rest)) := by
  constructor
  · intro hne
    simp only [extractStandingsFields]
    rw [show (c0 :: c1 :: rest).getD 1 dummySCell = c1 from rfl]
    rw [hmk]
    rw [decide_eq_true (show (c0 :: c1 :: rest).length > 1 by simp)]
    rw [decide_eq_true hne]
    simp
  · intro hfin hno
    simp only [extractStandingsFields]
    rw [show (c0 :: c1 :: rest).getD 1 dummySCell = c1 from rfl]
    rw [hfin]
    rw [show (c0 :: rest).getD 1 dummySCell = rest.getD 0 dummySCell from rfl]
    rw [hno, Bool.and_false]
    rw [show splitIndicators.contains (chars "Final") = true from rfl]
    rw [decide_eq_true (show (c0 :: c1 :: rest).length > 1 by simp)]
    rw [show decide (chars "Final" ≠ chars "Final") = false from rfl]
    simp only [Bool.true_and, Bool.and_false, Bool.and_true, Bool.false_eq_true,
      if_false, eq_self_iff_true, if_true, List.length_cons]
    rw [show (c0 :: c1 :: rest).getD (1 + 1) dummySCell = rest.getD 0 dummySCell from rfl]
    rw [show (c0 :: c1 :: rest).getD (2 + 1) dummySCell = rest.getD 1 dummySCell from rfl]
    rw [show (c0 :: c1 :: rest).getD (3 + 1) dummySCell = rest.getD 2 dummySCell from rfl]
    rw [show (c0 :: c1 :: rest).getD (4 + 1) dummySCell = rest.getD 3 dummySCell from rfl]
    rw [show (c0 :: c1 :: rest).getD (5 + 1) dummySCell = rest.getD 4 dummySCell from rfl]
    rw [show (c0 :: c1 :: rest).getD (6 + 1) dummySCell = rest.getD 5 dummySCell from rfl]
    rw [show (c0 :: rest).getD (1 + 0) dummySCell = rest.getD 0 dummySCell from rfl]
    rw [show (c0 :: rest).getD (2 + 0) dummySCell = rest.getD 1 dummySCell from rfl]
    rw [show (c0 :: rest).getD (3 + 0) dummySCell = rest.getD 2 dummySCell from rfl]
    rw [show (c0 :: rest).getD (4 + 0) dummySCell = rest.getD 3 dummySCell from rfl]
    rw [show (c0 :: rest).getD (5 + 0) dummySCell = rest.getD 4 dummySCell from rfl]
    rw [show (c0 :: rest).getD (6 + 0) dummySCell = rest.getD 5 dummySCell from rfl]
    by_cases h5 : 4 ≤ rest.length
    · rw [if_pos (show rest.length + 1 + 1 ≥ 5 + 1 from by omega),
        if_pos (show rest.length + 1 ≥ 5 + 0 from by omega)]
      by_cases h7 : 6 ≤ rest.length
      · rw [if_pos (show rest.length + 1 + 1 ≥ 7 + 1 from by omega),
          if_pos (show rest.length + 1 ≥ 7 + 0 from by omega)]
        rw [if_pos (show rest.length + 1 + 1 ≥ 6 + 1 from by omega),
          if_pos (show rest.length + 1 ≥ 6 + 0 from by omega)]
        rfl
      · rw [if_neg (show ¬(rest.length + 1 + 1 ≥ 7 + 1) from by omega),
          if_neg (show ¬(rest.length + 1 ≥ 7 + 0) from by omega)]
        rfl
    · rw [if_neg (show ¬(rest.length + 1 + 1 ≥ 5 + 1) from by omega),
        if_neg (show ¬(rest.length + 1 ≥ 5 + 0) from by omega)]
      rfl

theorem claim_C4_witness :
    splitIndicators.contains (pyStrip (⟨chars "Final", [], none, none⟩ : SCell).text) = true ∧
    ((pyStrip (⟨chars "Final", [], none, none⟩ : SCell).text ≠ chars "Final" →
      extractStandingsFields [] [] [] []
        (dummySCell :: (⟨chars "Final", [], none, none⟩ : SCell) :: []) = none) ∧
    (pyStrip (⟨chars "Final", [], none, none⟩ : SCell).text = chars "Final" →
      splitIndicators.contains (pyStrip ((([] : List SCell).getD 0 dummySCell).text)) = false →
      extractStandingsFields [] [] [] []
        (dummySCell :: (⟨chars "Final", [], none, none⟩ : SCell) :: []) =
      extractStandingsFields [] [] [] [] (dummySCell :: ([] : List SCell)))) :=
  ⟨by decide, claim_C4_split_marker [] [] [] [] dummySCell
    ⟨chars "Final", [], none, none⟩ [] (by decide)⟩

theorem standingsFields_seven (year league division team : List Char) (cells : List SCell)
    (hns : splitIndicators.contains (pyStrip ((cells.getD 1 dummySCell).text)) = false)
    (hlen : 7 ≤ cells.length) (tv fv : PyNum)
    (h3 : (if pyStrip ((cells.getD 3 dummySCell).text) = [] then some pyZeroNum
           else pyParseNum (pyStrip ((cells.getD 3 dummySCell).text))) = some tv)
    (h4 : (if pyStrip ((cells.getD 4 dummySCell).text) = [] then some pyZeroNum
           else pyParseNum (pyStrip ((cells.getD 4 dummySCell).text))) = some fv) :
    extractStandingsFields year league division team cells = some
      { year := year, league := league, division := division, team := team,
        wins := noneIfEmpty (some (pyStrip ((cells.getD 1 dummySCell).text))),
        losses := noneIfEmpty (some (pyStrip ((cells.getD 2 dummySCell).text))),
        ties := if (numIn01 fv && (pyStrip ((cells.getD 4 dummySCell).text)).contains '.') = true
          then tiesFinal (if (decide (pyStrip ((cells.getD 3 dummySCell).text) ≠ []) &&
              decide (pyStrip ((cells.getD 3 dummySCell).text) ≠ chars "0")) = true then
            some (pyStrip ((cells.getD 3 dummySCell).text)) else none)
          else none,
        wp := if (numIn01 fv && (pyStrip ((cells.getD 4 dummySCell).text)).contains '.') = true
          then noneIfEmpty (some (pyStrip ((cells.getD 4 dummySCell).text)))
          else noneIfEmpty (some (pyStrip ((cells.getD 3 dummySCell).text))),
        gb := if (numIn01 fv && (pyStrip ((cells.getD 4 dummySCell).text)).contains '.') = true
          then noneIfEmpty (cleanGBOpt (some (pyStrip ((cells.getD 5 dummySCell).text))))
          else noneIfEmpty (cleanGBOpt (some (pyStrip ((cells.getD 4 dummySCell).text)))),
        payroll := if (numIn01 fv &&
            (pyStrip ((cells.getD 4 dummySCell).text)).contains '.') = true
          then noneIfEmpty (payrollOf (pyStrip ((cells.getD 6 dummySCell).text)))
          else noneIfEmpty (payrollOf (pyStrip ((cells.getD 5 dummySCell).text))) } := by
  simp only [extractStandingsFields]
  rw [hns, Bool.and_false]
  simp only [Bool.false_eq_true, if_false, Bool.false_and, Nat.add_zero]
  rw [if_pos (show cells.length ≥ 5 from by omega)]
  rw [if_pos (show cells.length ≥ 7 from by omega)]
  rw [h3, h4]
  simp only []
  rw [if_pos (show cells.length ≥ 6 from by omega)]
  by_cases hdot :
      (numIn01 fv && (pyStrip ((cells.getD 4 dummySCell).text)).contains '.') = true
  · simp only [if_pos hdot]
  · simp only [if_neg hdot]
    rfl

theorem standingsFields_seven_fail (year league division team : List Char)
    (cells : List SCell)
    (hns : splitIndicators.contains (pyStrip ((cells.getD 1 dummySCell).text)) = false)
    (hlen : 7 ≤ cells.length)
    (hfail : (if pyStrip ((cells.getD 3 dummySCell).text) = [] then some pyZeroNum
        else pyParseNum (pyStrip ((cells.getD 3 dummySCell).text))) = none ∨
      (if pyStrip ((cells.getD 4 dummySCell).text) = [] then some pyZeroNum
        else pyParseNum (pyStrip ((cells.getD 4 dummySCell).text))) = none) :
    extractStandingsFields year league division team cells = some
      { year := year, league := league, division := division, team := team,
        wins := noneIfEmpty (some (pyStrip ((cells.getD 1 dummySCell).text))),
        losses := noneIfEmpty (some (pyStrip ((cells.getD 2 dummySCell).text))),
        ties := none,
        wp := noneIfEmpty (some (pyStrip ((cells.getD 3 dummySCell).text))),
        gb := noneIfEmpty (cleanGBOpt (some (pyStrip ((cells.getD 4 dummySCell).text)))),
        payroll := none } := by
  simp only [extractStandingsFields]
  rw [hns, Bool.and_false]
  simp only [Bool.false_eq_true, if_false, Bool.false_and, Nat.add_zero]
  rw [if_pos (show cells.length ≥ 5 from by omega)]
  rw [if_pos (show cells.length ≥ 7 from by omega)]
  rcases hfail with h | h
  · rw [h]
    rfl
  · cases hT3 : (if pyStrip ((cells.getD 3 dummySCell).text) = [] then some pyZeroNum
        else pyParseNum (pyStrip ((cells.getD 3 dummySCell).text))) with
    | none =>
        rw [h]
        rfl
    | some tv =>
        rw [h]
        rfl

/-! ## Claim C6 — ties / win-percentage disambiguation -/

/-- C6 (counterexample): the claimed disambiguation fails when the ties
candidate does not parse: with candidate `abc` and next cell `.500` — a
number in `[0,1]` whose text contains a decimal separator — the exception
fallback of the extractor records the candidate `abc`, not `.500`, as the
win percentage. -/
theorem claim_C6_counterexample :
    extractStandingsFields (chars "1901") (chars "AL") (chars "East") (chars "Boston")
      [dummySCell, dummySCell, dummySCell, ⟨chars "abc", [], none, none⟩,
       ⟨chars ".500", [], none, none⟩, dummySCell, dummySCell] =
      some { year := chars "1901", league := chars "AL", division := chars "East",
             team := chars "Boston", wins := none, losses := none, ties := none,
             wp := some (chars "abc"), gb := some (chars ".500"), payroll := none } ∧
    pyParseNum (chars ".500") = some ⟨false, 5, 1⟩ ∧
    numIn01 ⟨false, 5, 1⟩ = true ∧
    (chars ".500").contains '.' = true ∧
    chars "abc" ≠ chars ".500" := by
  decide

/-- C6 (amended): on a standings row with enough cells for an optional ties
column, the extractor looks at the candidate ties cell (index 3) and the next
cell (index 4).  When both cells parse as numbers (an empty cell reading as
0): if the next cell's value lies in `[0,1]` and its text contains a decimal
point, the next cell is recorded as the win percentage and the candidate as
ties (subject to the empty/zero scrub); otherwise there is no ties column,
the candidate itself is the win percentage and ties is null.  When either
cell fails to parse, the exception fallback records the candidate — not the
next cell — as the win percentage, with ties null, even if the next cell is a
number in `[0,1]` with a decimal separator. -/
theorem claim_C6_ties_wp (year league division team : List Char) (cells : List SCell)
    (hns : splitIndicators.contains (pyStrip ((cells.getD 1 dummySCell).text)) = false)
    (hlen : 7 ≤ cells.length) :
    (∀ tv fv : PyNum,
      (if pyStrip ((cells.getD 3 dummySCell).text) = [] then some pyZeroNum
        else pyParseNum (pyStrip ((cells.getD 3 dummySCell).text))) = some tv →
      (if pyStrip ((cells.getD 4 dummySCell).text) = [] then some pyZeroNum
        else pyParseNum (pyStrip ((cells.getD 4 dummySCell).text))) = some fv →
      ∃ r, extractStandingsFields year league division team cells = some r ∧
        ((numIn01 fv && (pyStrip ((cells.getD 4 dummySCell).text)).contains '.') = true →
          r.wp = some (pyStrip ((cells.getD 4 dummySCell).text)) ∧
          r.ties = tiesFinal (if (decide (pyStrip ((cells.getD 3 dummySCell).text) ≠ []) &&
              decide (pyStrip ((cells.getD 3 dummySCell).text) ≠ chars "0")) = true then
            some (pyStrip ((cells.getD 3 dummySCell).text)) else none)) ∧
        ((numIn01 fv && (pyStrip ((cells.getD 4 dummySCell).text)).contains '.') = false →
          r.wp = noneIfEmpty (some (pyStrip ((cells.getD 3 dummySCell).text))) ∧
          r.ties = none)) ∧
    ((if pyStrip ((cells.getD 3 dummySCell).text) = [] then some pyZeroNum
        else pyParseNum (pyStrip ((cells.getD 3 dummySCell).text))) = none ∨
     (if pyStrip ((cells.getD 4 dummySCell).text) = [] then some pyZeroNum
        else pyParseNum (pyStrip ((cells.getD 4 dummySCell).text))) = none →
      ∃ r, extractStandingsFields year league division team cells = some r ∧
        r.wp = noneIfEmpty (some (pyStrip ((cells.getD 3 dummySCell).text))) ∧
        r.ties = none) := by
  constructor
  · intro tv fv h3 h4
    refine ⟨_, standingsFields_seven year league division team cells hns hlen tv fv h3 h4,
      ?_, ?_⟩
    · intro hdot
      have hcont : (pyStrip ((cells.getD 4 dummySCell).text)).contains '.' = true :=
        ((Bool.and_eq_true _ _).mp hdot).2
      have hne4 : pyStrip ((cells.getD 4 dummySCell).text) ≠ [] := by
        intro he
        rw [he] at hcont
        exact absurd hcont (by decide)
      constructor
      · show (if (numIn01 fv && (pyStrip ((cells.getD 4 dummySCell).text)).contains '.') = true
            then noneIfEmpty (some (pyStrip ((cells.getD 4 dummySCell).text)))
            else noneIfEmpty (some (pyStrip ((cells.getD 3 dummySCell).text)))) =
          some (pyStrip ((cells.getD 4 dummySCell).text))
        rw [if_pos hdot]
        simp only [noneIfEmpty]
        rw [if_neg hne4]
      · show (if (numIn01 fv && (pyStrip ((cells.getD 4 dummySCell).text)).contains '.') = true
            then tiesFinal (if (decide (pyStrip ((cells.getD 3 dummySCell).text) ≠ []) &&
                decide (pyStrip ((cells.getD 3 dummySCell).text) ≠ chars "0")) = true then
              some (pyStrip ((cells.getD 3 dummySCell).text)) else none)
            else none) = _
        rw [if_pos hdot]
    · intro hdot
      have hdot' : ¬((numIn01 fv &&
          (pyStrip ((cells.getD 4 dummySCell).text)).contains '.') = true) := by
        rw [hdot]
        exact Bool.false_ne_true
      constructor
      · show (if (numIn01 fv && (pyStrip ((cells.getD 4 dummySCell).text)).contains '.') = true
            then noneIfEmpty (some (pyStrip ((cells.getD 4 dummySCell).text)))
            else noneIfEmpty (some (pyStrip ((cells.getD 3 dummySCell).text)))) = _
        rw [if_neg hdot']
      · show (if (numIn01 fv && (pyStrip ((cells.getD 4 dummySCell).text)).contains '.') = true
            then tiesFinal (if (decide (pyStrip ((cells.getD 3 dummySCell).text) ≠ []) &&
                decide (pyStrip ((cells.getD 3 dummySCell).text) ≠ chars "0")) = true then
              some (pyStrip ((cells.getD 3 dummySCell).text)) else none)
            else none) = none
        rw [if_neg hdot']
  · intro hfail
    exact ⟨_, standingsFields_seven_fail year league division team cells hns hlen hfail,
      rfl, rfl⟩

theorem claim_C6_witness :
    splitIndicators.contains (pyStrip ((([dummySCell, dummySCell, dummySCell,
      (⟨chars "5", [], none, none⟩ : SCell), (⟨chars ".600", [], none, none⟩ : SCell),
      dummySCell, dummySCell] : List SCell).getD 1 dummySCell).text)) = false ∧
    7 ≤ ([dummySCell, dummySCell, dummySCell,
      (⟨chars "5", [], none, none⟩ : SCell), (⟨chars ".600", [], none, none⟩ : SCell),
      dummySCell, dummySCell] : List SCell).length ∧
    ((∀ tv fv : PyNum,
      (if pyStrip ((([dummySCell, dummySCell, dummySCell,
          (⟨chars "5", [], none, none⟩ : SCell), (⟨chars ".600", [], none, none⟩ : SCell),
          dummySCell, dummySCell] : List SCell).getD 3 dummySCell).text) = [] then some pyZeroNum
        else pyParseNum (pyStrip ((([dummySCell, dummySCell, dummySCell,
          (⟨chars "5", [], none, none⟩ : SCell), (⟨chars ".600", [], none, none⟩ : SCell),
          dummySCell, dummySCell] : List SCell).getD 3 dummySCell).text))) = some tv →
      (if pyStrip ((([dummySCell, dummySCell, dummySCell,
          (⟨chars "5", [], none, none⟩ : SCell), (⟨chars ".600", [], none, none⟩ : SCell),
          dummySCell, dummySCell] : List SCell).getD 4 dummySCell).text) = [] then some pyZeroNum
        else pyParseNum (pyStrip ((([dummySCell, dummySCell, dummySCell,
          (⟨chars "5", [], none, none⟩ : SCell), (⟨chars ".600", [], none, none⟩ : SCell),
          dummySCell, dummySCell] : List SCell).getD 4 dummySCell).text))) = some fv →
      ∃ r, extractStandingsFields (chars "1901") (chars "AL") (chars "East") (chars "Boston")
          [dummySCell, dummySCell, dummySCell, ⟨chars "5", [], none, none⟩,
           ⟨chars ".600", [], none, none⟩, dummySCell, dummySCell] = some r ∧
        ((numIn01 fv && (pyStrip ((([dummySCell, dummySCell, dummySCell,
            (⟨chars "5", [], none, none⟩ : SCell), (⟨chars ".600", [], none, none⟩ : SCell),
            dummySCell, dummySCell] : List SCell).getD 4 dummySCell).text)).contains '.') = true →
          r.wp = some (pyStrip ((([dummySCell, dummySCell, dummySCell,
            (⟨chars "5", [], none, none⟩ : SCell), (⟨chars ".600", [], none, none⟩ : SCell),
            dummySCell, dummySCell] : List SCell).getD 4 dummySCell).text)) ∧
          r.ties = tiesFinal (if (decide (pyStrip ((([dummySCell, dummySCell, dummySCell,
              (⟨chars "5", [], none, none⟩ : SCell), (⟨chars ".600", [], none, none⟩ : SCell),
              dummySCell, dummySCell] : List SCell).getD 3 dummySCell).text) ≠ []) &&
              decide (pyStrip ((([dummySCell, dummySCell, dummySCell,
              (⟨chars "5", [], none, none⟩ : SCell), (⟨chars ".600", [], none, none⟩ : SCell),
              dummySCell, dummySCell] : List SCell).getD 3 dummySCell).text) ≠ chars "0")) = true
            then some (pyStrip ((([dummySCell, dummySCell, dummySCell,
              (⟨chars "5", [], none, none⟩ : SCell), (⟨chars ".600", [], none, none⟩ : SCell),
              dummySCell, dummySCell] : List SCell).getD 3 dummySCell).text)) else none)) ∧
        ((numIn01 fv && (pyStrip ((([dummySCell, dummySCell, dummySCell,
            (⟨chars "5", [], none, none⟩ : SCell), (⟨chars ".600", [], none, none⟩ : SCell),
            dummySCell, dummySCell] : List SCell).getD 4 dummySCell).text)).contains '.') = false →
          r.wp = noneIfEmpty (some (pyStrip ((([dummySCell, dummySCell, dummySCell,
            (⟨chars "5", [], none, none⟩ : SCell), (⟨chars ".600", [], none, none⟩ : SCell),
            dummySCell, dummySCell] : List SCell).getD 3 dummySCell).text))) ∧
          r.ties = none)) ∧
    ((if pyStrip ((([dummySCell, dummySCell, dummySCell,
          (⟨chars "5", [], none, none⟩ : SCell), (⟨chars ".600", [], none, none⟩ : SCell),
          dummySCell, dummySCell] : List SCell).getD 3 dummySCell).text) = [] then some pyZeroNum
        else pyParseNum (pyStrip ((([dummySCell, dummySCell, dummySCell,
          (⟨chars "5", [], none, none⟩ : SCell), (⟨chars ".600", [], none, none⟩ : SCell),
          dummySCell, dummySCell] : List SCell).getD 3 dummySCell).text))) = none ∨
     (if pyStrip ((([dummySCell, dummySCell, dummySCell,
          (⟨chars "5", [], none, none⟩ : SCell), (⟨chars ".600", [], none, none⟩ : SCell),
          dummySCell, dummySCell] : List SCell).getD 4 dummySCell).text) = [] then some pyZeroNum
        else pyParseNum (pyStrip ((([dummySCell, dummySCell, dummySCell,
          (⟨chars "5", [], none, none⟩ : SCell), (⟨chars ".600", [], none, none⟩ : SCell),
          dummySCell, dummySCell] : List SCell).getD 4 dummySCell).text))) = none →
      ∃ r, extractStandingsFields (chars "1901") (chars "AL") (chars "East") (chars "Boston")
          [dummySCell, dummySCell, dummySCell, ⟨chars "5", [], none, none⟩,
           ⟨chars ".600", [], none, none⟩, dummySCell, dummySCell] = some r ∧
        r.wp = noneIfEmpty (some (pyStrip ((([dummySCell, dummySCell, dummySCell,
          (⟨chars "5", [], none, none⟩ : SCell), (⟨chars ".600", [], none, none⟩ : SCell),
          dummySCell, dummySCell] : List SCell).getD 3 dummySCell).text))) ∧
        r.ties = none)) :=
  ⟨rfl, by decide,
    claim_C6_ties_wp (chars "1901") (chars "AL") (chars "East") (chars "Boston")
      [dummySCell, dummySCell, dummySCell, ⟨chars "5", [], none, none⟩,
       ⟨chars ".600", [], none, none⟩, dummySCell, dummySCell]
      rfl (by decide)⟩

theorem tiesFinal_ne_zero (v : Option (List Char)) : tiesFinal v ≠ some (chars "0") := by
  unfold tiesFinal
  split
  · exact fun h => Option.noConfusion h
  · rename_i s
    split
    · exact fun h => Option.noConfusion h
    · rename_i hcond
      intro h
      apply hcond
      rw [Option.some.inj h]
      simp

theorem standings_ties_never_zero (year league division team : List Char)
    (cells : List SCell) (r : StandingRecord)
    (h : extractStandingsFields year league division team cells = some r) :
    r.ties ≠ some (chars "0") := by
  simp only [extractStandingsFields] at h
  split at h
  · exact Option.noConfusion h
  · have h2 := Option.some.inj h
    intro hcon
    rw [← h2] at hcon
    exact tiesFinal_ne_zero _ hcon

/-! ## Claim C10 — ties of zero becomes null -/

/-- C10: the emitted ties field never carries the text `0`: the final scrub
maps a ties count of `0` (and an empty ties cell) to null, so a row whose
selected ties candidate reads exactly `0` emits ties = null and is
indistinguishable in the output from a row with no ties column at all. -/
theorem claim_C10_ties_zero (year league division team : List Char) :
    (∀ (cells : List SCell) (r : StandingRecord),
      extractStandingsFields year league division team cells = some r →
      r.ties ≠ some (chars "0")) ∧
    (∀ (cells : List SCell) (fv : PyNum),
      splitIndicators.contains (pyStrip ((cells.getD 1 dummySCell).text)) = false →
      7 ≤ cells.length →
      pyStrip ((cells.getD 3 dummySCell).text) = chars "0" →
      (if pyStrip ((cells.getD 4 dummySCell).text) = [] then some pyZeroNum
        else pyParseNum (pyStrip ((cells.getD 4 dummySCell).text))) = some fv →
      (numIn01 fv && (pyStrip ((cells.getD 4 dummySCell).text)).contains '.') = true →
      ∃ r, extractStandingsFields year league division team cells = some r ∧
        r.ties = none) := by
  constructor
  · intro cells r h
    exact standings_ties_never_zero year league division team cells r h
  · intro cells fv hns hlen h30 h4 hdot
    have h3 : (if pyStrip ((cells.getD 3 dummySCell).text) = [] then some pyZeroNum
        else pyParseNum (pyStrip ((cells.getD 3 dummySCell).text))) =
        some ⟨true, 0, 0⟩ := by
      rw [h30]
      decide
    refine ⟨_, standingsFields_seven year league division team cells hns hlen
      ⟨true, 0, 0⟩ fv h3 h4, ?_⟩
    show (if (numIn01 fv && (pyStrip ((cells.getD 4 dummySCell).text)).contains '.') = true
        then tiesFinal (if (decide (pyStrip ((cells.getD 3 dummySCell).text) ≠ []) &&
            decide (pyStrip ((cells.getD 3 dummySCell).text) ≠ chars "0")) = true then
          some (pyStrip ((cells.getD 3 dummySCell).text)) else none)
        else none) = none
    rw [if_pos hdot, h30]
    decide

theorem claim_C10_witness :
    pyStrip ((([dummySCell, dummySCell, dummySCell, (⟨chars "0", [], none, none⟩ : SCell),
      (⟨chars ".600", [], none, none⟩ : SCell), dummySCell, dummySCell] :
        List SCell).getD 3 dummySCell).text) = chars "0" ∧
    (numIn01 ⟨false, 6, 1⟩ && (pyStrip ((([dummySCell, dummySCell, dummySCell,
      (⟨chars "0", [], none, none⟩ : SCell), (⟨chars ".600", [], none, none⟩ : SCell),
      dummySCell, dummySCell] : List SCell).getD 4 dummySCell).text)).contains '.') = true ∧
    ∃ r, extractStandingsFields (chars "1901") (chars "AL") (chars "East") (chars "Boston")
        [dummySCell, dummySCell, dummySCell, ⟨chars "0", [], none, none⟩,
         ⟨chars ".600", [], none, none⟩, dummySCell, dummySCell] = some r ∧
      r.ties = none :=
  ⟨rfl, rfl,
    (claim_C10_ties_zero (chars "1901") (chars "AL") (chars "East") (chars "Boston")).2
      [dummySCell, dummySCell, dummySCell, ⟨chars "0", [], none, none⟩,
       ⟨chars ".600", [], none, none⟩, dummySCell, dummySCell] ⟨false, 6, 1⟩
      rfl (by decide) rfl rfl rfl⟩

theorem leaderStep_start2 (year league : List Char) (st : LState)
    (c0 c1 c2 c3 c4 : LCell) (rest : List LCell) (rcls : List Char)
    (hg0 : hasSub (chars "grey") c0.cls = false) (hgr : hasSub (chars "grey") rcls = false)
    (hb0 : hasSub (chars "banner") c0.cls = false)
    (hh0 : hasSub (chars "header") c0.cls = false)
    (hdc : hasSub (chars "datacolBlue") c0.cls = true)
    (hrs : c1.rowspan = some (chars "2")) :
    leaderRowStep year league st ⟨c0 :: c1 :: c2 :: c3 :: c4 :: rest, rcls⟩ =
      (⟨some (pyStrip c0.text), some (pyStrip c3.text), some (cleanPlayerName c1.text)⟩,
       some ⟨year, league, pyStrip c0.text, cleanPlayerName c1.text,
         pyStrip c2.text, pyStrip c3.text⟩) := by
  simp only [leaderRowStep]
  rw [hg0, hgr, hb0, hh0, hdc]
  rw [show (c0 :: c1 :: c2 :: c3 :: c4 :: rest).getD 1 dummyLCell = c1 from rfl]
  rw [show (c0 :: c1 :: c2 :: c3 :: c4 :: rest).getD 2 dummyLCell = c2 from rfl]
  rw [show (c0 :: c1 :: c2 :: c3 :: c4 :: rest).getD 3 dummyLCell = c3 from rfl]
  rw [hrs]
  rw [decide_eq_true (show (c0 :: c1 :: c2 :: c3 :: c4 :: rest).length ≥ 5 from by
    simp only [List.length_cons]
    omega)]
  simp only []
  rw [show pyParseInt (chars "2") = some (2 : Int) from by decide]
  simp
  decide

theorem leaderStep_one (year league : List Char) (st : LState) (d0 : LCell)
    (r2cls : List Char)
    (hg1 : hasSub (chars "grey") d0.cls = false)
    (hgr2 : hasSub (chars "grey") r2cls = false)
    (hb1 : hasSub (chars "banner") d0.cls = false)
    (hh1 : hasSub (chars "header") d0.cls = false)
    (hpl : truthyS st.player = true) (hstt : truthyS st.statistic = true) :
    leaderRowStep year league st ⟨[d0], r2cls⟩ =
      (st, some ⟨year, league, st.statistic.getD [], st.player.getD [],
        pyStrip d0.text, st.value.getD []⟩) := by
  simp only [leaderRowStep]
  rw [hg1, hgr2, hb1, hh1, hpl, hstt]
  simp

/-! ## Claim C7 — leader rows with player row-span 2 -/

/-- C7: a statistic-start row (at least five cells, first cell tagged
`datacolBlue`) whose player cell spans two rows, followed by one 1-cell
continuation row, emits exactly two LeaderRecords that share the statistic,
value and player name — the name with asterisk markup stripped — and differ
only in the team. -/
theorem claim_C7_rowspan_pair (year league : List Char)
    (c0 c1 c2 c3 c4 : LCell) (rest : List LCell) (rcls : List Char)
    (d0 : LCell) (r2cls : List Char)
    (hg0 : hasSub (chars "grey") c0.cls = false)
    (hgr : hasSub (chars "grey") rcls = false)
    (hb0 : hasSub (chars "banner") c0.cls = false)
    (hh0 : hasSub (chars "header") c0.cls = false)
    (hdc : hasSub (chars "datacolBlue") c0.cls = true)
    (hrs : c1.rowspan = some (chars "2"))
    (hstat : pyStrip c0.text ≠ []) (hpn : cleanPlayerName c1.text ≠ [])
    (hg1 : hasSub (chars "grey") d0.cls = false)
    (hgr2 : hasSub (chars "grey") r2cls = false)
    (hb1 : hasSub (chars "banner") d0.cls = false)
    (hh1 : hasSub (chars "header") d0.cls = false) :
    extract_player_leaders year league
      [⟨c0 :: c1 :: c2 :: c3 :: c4 :: rest, rcls⟩, ⟨[d0], r2cls⟩] =
      [⟨year, league, pyStrip c0.text, cleanPlayerName c1.text, pyStrip c2.text,
        pyStrip c3.text⟩,
       ⟨year, league, pyStrip c0.text, cleanPlayerName c1.text, pyStrip d0.text,
        pyStrip c3.text⟩] := by
  simp only [extract_player_leaders, List.foldl]
  rw [leaderStep_start2 year league ⟨none, none, none⟩ c0 c1 c2 c3 c4 rest rcls
    hg0 hgr hb0 hh0 hdc hrs]
  simp only []
  rw [leaderStep_one year league
    ⟨some (pyStrip c0.text), some (pyStrip c3.text), some (cleanPlayerName c1.text)⟩
    d0 r2cls hg1 hgr2 hb1 hh1 (decide_eq_true hpn) (decide_eq_true hstat)]
  simp

theorem claim_C7_witness :
    hasSub (chars "grey")
      (⟨chars "Home Runs", chars "datacolBlue", none⟩ : LCell).cls = false ∧
    hasSub (chars "grey") ([] : List Char) = false ∧
    hasSub (chars "banner")
      (⟨chars "Home Runs", chars "datacolBlue", none⟩ : LCell).cls = false ∧
    hasSub (chars "header")
      (⟨chars "Home Runs", chars "datacolBlue", none⟩ : LCell).cls = false ∧
    hasSub (chars "datacolBlue")
      (⟨chars "Home Runs", chars "datacolBlue", none⟩ : LCell).cls = true ∧
    (⟨chars "Babe Ruth*", [], some (chars "2")⟩ : LCell).rowspan = some (chars "2") ∧
    pyStrip (⟨chars "Home Runs", chars "datacolBlue", none⟩ : LCell).text ≠ [] ∧
    cleanPlayerName (⟨chars "Babe Ruth*", [], some (chars "2")⟩ : LCell).text ≠ [] ∧
    hasSub (chars "grey") (⟨chars "BOS", [], none⟩ : LCell).cls = false ∧
    hasSub (chars "banner") (⟨chars "BOS", [], none⟩ : LCell).cls = false ∧
    hasSub (chars "header") (⟨chars "BOS", [], none⟩ : LCell).cls = false ∧
    extract_player_leaders (chars "1901") (chars "AL")
      [⟨[⟨chars "Home Runs", chars "datacolBlue", none⟩,
         ⟨chars "Babe Ruth*", [], some (chars "2")⟩,
         ⟨chars "NYY", [], none⟩, ⟨chars "54", [], none⟩, ⟨[], [], none⟩], []⟩,
       ⟨[⟨chars "BOS", [], none⟩], []⟩] =
      [⟨chars "1901", chars "AL",
        pyStrip (⟨chars "Home Runs", chars "datacolBlue", none⟩ : LCell).text,
        cleanPlayerName (⟨chars "Babe Ruth*", [], some (chars "2")⟩ : LCell).text,
        pyStrip (⟨chars "NYY", [], none⟩ : LCell).text,
        pyStrip (⟨chars "54", [], none⟩ : LCell).text⟩,
       ⟨chars "1901", chars "AL",
        pyStrip (⟨chars "Home Runs", chars "datacolBlue", none⟩ : LCell).text,
        cleanPlayerName (⟨chars "Babe Ruth*", [], some (chars "2")⟩ : LCell).text,
        pyStrip (⟨chars "BOS", [], none⟩ : LCell).text,
        pyStrip (⟨chars "54", [], none⟩ : LCell).text⟩] :=
  ⟨rfl, rfl, rfl, rfl, rfl, rfl, by decide, by decide, rfl, rfl, rfl,
   claim_C7_rowspan_pair (chars "1901") (chars "AL")
     ⟨chars "Home Runs", chars "datacolBlue", none⟩
     ⟨chars "Babe Ruth*", [], some (chars "2")⟩
     ⟨chars "NYY", [], none⟩ ⟨chars "54", [], none⟩ ⟨[], [], none⟩ [] []
     ⟨chars "BOS", [], none⟩ []
     rfl rfl rfl rfl rfl rfl (by decide) (by decide) rfl rfl rfl rfl⟩

theorem foldl_keep_none (c : List Char) :
    ∀ (l : List (Nat × List Char)) (acc : Option Nat), (∀ p ∈ l, p.2 ≠ c) →
      l.foldl (fun acc p => if p.2 = c then some p.1 else acc) acc = acc := by
  intro l
  induction l with
  | nil => intro acc _; rfl
  | cons q t ih =>
      intro acc h
      simp only [List.foldl_cons]
      rw [if_neg (h q (by simp))]
      exact ih acc (fun p hp => h p (by simp [hp]))

theorem htmlColToIndex_none {cols : List (List Char)} {c : List Char}
    (h : c ∉ cols) : htmlColToIndex cols c = none := by
  unfold htmlColToIndex
  apply foldl_keep_none
  intro p hp hpc
  apply h
  rw [← hpc]
  have he := List.enum_map_snd cols
  rw [← he]
  exact List.mem_map_of_mem Prod.snd hp

/-! ## Claim C8 — era-mapped pitching tables and absent columns -/

/-- C8: for a 2003 pitching table whose synonym-translated header omits
`SVO`, every emitted TeamStatRecord carries the field `SVO = null`, and every
other expected target column is populated from the data cell at its
translated header label's position (matched by label, with an in-range
check), not by a fixed index. -/
theorem claim_C8_era_svo (league : List Char) (headerCells : List TCell)
    (rows : List (List TCell))
    (hsvo : chars "SVO" ∉ (headerColumns headerCells).map pitchColMap) :
    (∀ rec ∈ extract_team_stats_complete (chars "2003") league (chars "Pitching")
        headerCells rows, (chars "SVO", (none : Option (List Char))) ∈ rec.fields) ∧
    (∀ r ∈ rows, ∀ rec, teamStatsRowEra (chars "2003") league
        ((headerColumns headerCells).map pitchColMap) r = some rec →
      ∀ ec ∈ expectedPitchingColumns, ec ≠ chars "TEAM" →
        ∀ idx, htmlColToIndex ((headerColumns headerCells).map pitchColMap) ec =
            some idx →
          idx < r.length → (ec, some (statValueAt r idx)) ∈ rec.fields) := by
  constructor
  · intro rec hrec
    simp only [extract_team_stats_complete] at hrec
    split at hrec
    · exact absurd hrec (List.not_mem_nil rec)
    · split at hrec
      · rcases List.mem_filterMap.mp hrec with ⟨r, _, hre⟩
        unfold teamStatsRowEra at hre
        split at hre
        · have h2 := Option.some.inj hre
          rw [← h2]
          show (chars "SVO", (none : Option (List Char))) ∈
            (expectedPitchingColumns.filter (fun c => c ≠ chars "TEAM")).map
              (fun ec => (ec,
                match htmlColToIndex ((headerColumns headerCells).map pitchColMap) ec with
                | some idx =>
                    if idx < r.length then some (statValueAt r idx) else none
                | none => none))
          apply List.mem_map.mpr
          refine ⟨chars "SVO", by decide, ?_⟩
          rw [htmlColToIndex_none hsvo]
        · exact Option.noConfusion hre
      · rename_i hcond
        exact absurd rfl hcond
  · intro r _ rec hre ec hec hneq idx hidx hlt
    unfold teamStatsRowEra at hre
    split at hre
    · have h2 := Option.some.inj hre
      rw [← h2]
      show (ec, some (statValueAt r idx)) ∈
        (expectedPitchingColumns.filter (fun c => c ≠ chars "TEAM")).map
          (fun ec => (ec,
            match htmlColToIndex ((headerColumns headerCells).map pitchColMap) ec with
            | some idx =>
                if idx < r.length then some (statValueAt r idx) else none
            | none => none))
      apply List.mem_map.mpr
      refine ⟨ec, List.mem_filter.mpr ⟨hec, decide_eq_true hneq⟩, ?_⟩
      rw [hidx]
      show (ec, if idx < r.length then some (statValueAt r idx) else none) =
        (ec, some (statValueAt r idx))
      rw [if_pos hlt]
    · exact Option.noConfusion hre

theorem claim_C8_witness :
    chars "SVO" ∉ (headerColumns [(⟨chars "TEAM", chars "banner", none⟩ : TCell),
      (⟨chars "W", chars "banner", none⟩ : TCell)]).map pitchColMap ∧
    ((∀ rec ∈ extract_team_stats_complete (chars "2003") (chars "AL") (chars "Pitching")
        [(⟨chars "TEAM", chars "banner", none⟩ : TCell),
         (⟨chars "W", chars "banner", none⟩ : TCell)]
        [[⟨chars "Boston", [], none⟩, ⟨chars "91", [], none⟩, ⟨chars "3.87", [], none⟩]],
      (chars "SVO", (none : Option (List Char))) ∈ rec.fields) ∧
    (∀ r ∈ [[(⟨chars "Boston", [], none⟩ : TCell), ⟨chars "91", [], none⟩,
        ⟨chars "3.87", [], none⟩]], ∀ rec, teamStatsRowEra (chars "2003") (chars "AL")
        ((headerColumns [(⟨chars "TEAM", chars "banner", none⟩ : TCell),
          (⟨chars "W", chars "banner", none⟩ : TCell)]).map pitchColMap) r = some rec →
      ∀ ec ∈ expectedPitchingColumns, ec ≠ chars "TEAM" →
        ∀ idx, htmlColToIndex ((headerColumns [(⟨chars "TEAM", chars "banner", none⟩ : TCell),
            (⟨chars "W", chars "banner", none⟩ : TCell)]).map pitchColMap) ec = some idx →
          idx < r.length → (ec, some (statValueAt r idx)) ∈ rec.fields)) :=
  ⟨by decide,
   claim_C8_era_svo (chars "AL")
     [⟨chars "TEAM", chars "banner", none⟩, ⟨chars "W", chars "banner", none⟩]
     [[⟨chars "Boston", [], none⟩, ⟨chars "91", [], none⟩, ⟨chars "3.87", [], none⟩]]
     (by decide)⟩
